import Mathlib

/-!
Shallow embedding of the `contains-version-uplift` GitHub action sources.

Strings are modelled as `List Char` (`Str`); JavaScript `Map`s as
insertion-ordered association lists with JS `Map.set` update semantics;
fallible external library calls (`toml.parse`, `JSON.parse`, xml2js
`parseString`) as `Str → Option T` oracles passed in as parameters, where
`none` models both a parse error and a thrown exception (the sources catch
every exception and return `[]` on either outcome).
-/

set_option maxRecDepth 10000

abbrev Str := List Char

/-- Convert a Lean string literal to the `List Char` model. -/
def str (s : String) : Str := s.toList

/-- JavaScript whitespace for `String.prototype.trim` (ASCII part). -/
def isJsSpace (c : Char) : Bool :=
  c = ' ' || c = '\t' || c = '\n' || c = '\r' || c = '\x0b' || c = '\x0c'

/-- Model of `String.prototype.trim`. -/
def jsTrim (s : Str) : Str :=
  ((s.dropWhile isJsSpace).reverse.dropWhile isJsSpace).reverse

/-- `b` occurs as a contiguous substring at the start of `a`. -/
def listIsPrefix (b a : Str) : Bool :=
  match b, a with
  | [], _ => true
  | _ :: _, [] => false
  | x :: xs, y :: ys => x = y && listIsPrefix xs ys

/-- Model of `a.includes(b)` (substring test). -/
def strIncludes (a b : Str) : Bool :=
  match a with
  | [] => b = []
  | _ :: rest => listIsPrefix b a || strIncludes rest b

/-- Model of `a.startsWith(b)`. -/
def strStartsWith (a b : Str) : Bool := b.isPrefixOf a

/-- Model of `String.prototype.toLowerCase` on one character (ASCII range;
all dependency-name characters produced by the parsers are ASCII). -/
def jsToLowerChar (c : Char) : Char :=
  if 65 ≤ c.toNat ∧ c.toNat ≤ 90 then Char.ofNat (c.toNat + 32) else c

/-- Model of `String.prototype.toLowerCase`. -/
def jsToLower (s : Str) : Str := s.map jsToLowerChar

/-! ### JavaScript `Map` model

Insertion-ordered association list; `set` on an existing key updates the
value in place (keeping the original position), otherwise appends. -/

def jsMapGet {β : Type} : List (Str × β) → Str → Option β
  | [], _ => none
  | (k, v) :: rest, key => if k = key then some v else jsMapGet rest key

def jsMapHas {β : Type} (m : List (Str × β)) (key : Str) : Bool :=
  (jsMapGet m key).isSome

def jsMapSet {β : Type} (m : List (Str × β)) (key : Str) (v : β) : List (Str × β) :=
  if jsMapHas m key then
    m.map (fun p => if p.1 = key then (key, v) else p)
  else
    m ++ [(key, v)]

/-- Model of `new Map(Object.entries(o))`. -/
def jsMapFromList {β : Type} (l : List (Str × β)) : List (Str × β) :=
  l.foldl (fun m p => jsMapSet m p.1 p.2) []

/-- Number of entries of a JS `Map` (`map.size`). -/
def jsMapSize {β : Type} (m : List (Str × β)) : Nat := m.length

/-! ## `src/types.ts` -/

inductive ChangeType where
  | added | removed | major | minor | patch | prerelease | other
  deriving DecidableEq, Repr

inductive Ecosystem where
  | node | python | go | ruby | java | rust | dotnet
  deriving DecidableEq, Repr

/-- The string form of an ecosystem identifier (`types.ts` VALID_ECOSYSTEMS). -/
def ecosystemStr : Ecosystem → Str
  | .node => str "node"
  | .python => str "python"
  | .go => str "go"
  | .ruby => str "ruby"
  | .java => str "java"
  | .rust => str "rust"
  | .dotnet => str "dotnet"

inductive DependencyType where
  | production | development | optional | peer | build | test
  deriving DecidableEq, Repr

structure DependencyChange where
  name : Str
  ecosystem : Ecosystem
  file : Str
  oldVersion : Option Str
  newVersion : Option Str
  changeType : ChangeType
  dependencyType : DependencyType
  deriving DecidableEq, Repr

structure ParsedDependencies where
  dependencies : List (Str × Str)
  dependencyType : DependencyType
  deriving DecidableEq, Repr

/-! ## `src/version.ts` -/

/-- The character class `[\^~=<>!]` of `cleanVersion`'s prefix regex. -/
def isVersionPrefixChar (c : Char) : Bool :=
  c = '^' || c = '~' || c = '=' || c = '<' || c = '>' || c = '!'

/-- `cleanVersion` (version.ts:7-10):
`version.replace(/^[\^~=<>!]+/, '').trim()`. -/
def cleanVersion (version : Str) : Str :=
  jsTrim (version.dropWhile isVersionPrefixChar)

/-! ### Model of the `semver` library functions used by `determineChangeType`
(`semver.coerce`, `semver.prerelease`, `semver.diff`). -/

def isDigitChar (c : Char) : Bool := '0' ≤ c ∧ c ≤ '9'

/-- Numeric value of a digit run. -/
def natOfDigits (l : Str) : Nat :=
  l.foldl (fun n c => n * 10 + (c.toNat - 48)) 0

/-- A digit run is accepted by semver's strict numeric-identifier grammar
(`0|[1-9]\d*`) iff it is nonempty and has no leading zero. -/
def validNumRun (l : Str) : Bool :=
  match l with
  | [] => false
  | c :: rest => c ≠ '0' || rest = []

/-- `semver.coerce`: the COERCE regex looks for the leftmost digit run not
preceded by a digit; runs longer than 16 digits cannot match `\d{1,16}`
followed by a non-digit, so they are skipped whole. Returns the run for the
major component together with the remaining text. -/
def coerceScan : Bool → Str → Option (Str × Str)
  | _, [] => none
  | prevDigit, c :: cs =>
    if isDigitChar c then
      if prevDigit then coerceScan true cs  -- inside a run that cannot start a match
      else
        let run := (c :: cs).takeWhile isDigitChar
        if run.length ≤ 16 then some (run, (c :: cs).dropWhile isDigitChar)
        else coerceScan true cs
    else coerceScan false cs

def coerceFindRun (s : Str) : Option (Str × Str) := coerceScan false s

/-- An optional `(?:\.(\d{1,16}))?` group of the COERCE regex: it matches iff
the text starts with `.` followed by a digit run of length 1..16 (a longer run
cannot satisfy the trailing `$|[^\d]`, and backtracking inside the run always
fails). Returns the captured run (if taken) and the remaining text. -/
def coerceOptGroup (s : Str) : Option Str × Str :=
  match s with
  | '.' :: t =>
    let run := t.takeWhile isDigitChar
    if run ≠ [] ∧ run.length ≤ 16 then (some run, t.dropWhile isDigitChar)
    else (none, s)
  | _ => (none, s)

/-- `semver.coerce(version)` (no `rtl`, no `includePrerelease`): extract
major/minor/patch digit runs with the COERCE regex and feed
`"maj.min.pat"` to the strict parser; a captured run with a leading zero
makes that strict parse fail, so the whole coercion returns `null`.
Prerelease/build text after the matched runs is ignored. -/
def coerce (s : Str) : Option (Nat × Nat × Nat) :=
  match coerceFindRun s with
  | none => none
  | some (r1, rest1) =>
    let (r2, rest2) := coerceOptGroup rest1
    let (r3, _) := coerceOptGroup rest2
    if validNumRun r1 && (match r2 with | some r => validNumRun r | none => true)
        && (match r3 with | some r => validNumRun r | none => true) then
      some (natOfDigits r1,
            (match r2 with | some r => natOfDigits r | none => 0),
            (match r3 with | some r => natOfDigits r | none => 0))
    else none

/-- Characters allowed in semver prerelease/build identifiers
(`[0-9A-Za-z-]`). -/
def isIdentChar (c : Char) : Bool :=
  isDigitChar c || ('a' ≤ c ∧ c ≤ 'z') || ('A' ≤ c ∧ c ≤ 'Z') || c = '-'

/-- A valid strict prerelease identifier: `0|[1-9]\d*` or
`\d*[a-zA-Z-][a-zA-Z0-9-]*`. -/
def validPreId (l : Str) : Bool :=
  l ≠ [] && l.all isIdentChar && (l.any (fun c => ¬ isDigitChar c) || validNumRun l)

/-- A valid strict build identifier: `[0-9A-Za-z-]+`. -/
def validBuildId (l : Str) : Bool :=
  l ≠ [] && l.all isIdentChar

/-- Split a character list on `.` separators. -/
def splitOnDot (l : Str) : List Str :=
  l.splitOn '.'

/-- `Number.MAX_SAFE_INTEGER`; the `SemVer` constructor throws when a main
version component exceeds it. -/
def MAX_SAFE_INTEGER : Nat := 9007199254740991

/-- Parse one strict main-version component (`0|[1-9]\d*`, value bounded by
`MAX_SAFE_INTEGER`), returning the value and the rest of the text. -/
def parseMainNum (s : Str) : Option (Nat × Str) :=
  let run := s.takeWhile isDigitChar
  if validNumRun run ∧ natOfDigits run ≤ MAX_SAFE_INTEGER then
    some (natOfDigits run, s.dropWhile isDigitChar)
  else none

/-- Strict semver parse (the FULL regex `^v?MAIN(-PRE)?(\+BUILD)?$` applied to
the trimmed input, as the `SemVer` constructor does), returning the list of
prerelease identifiers on success. -/
def semverParsePrerelease (s : Str) : Option (List Str) :=
  let t := jsTrim s
  let t := match t with | 'v' :: r => r | _ => t
  match parseMainNum t with
  | none => none
  | some (_, t1) =>
    match t1 with
    | '.' :: t1 =>
      match parseMainNum t1 with
      | none => none
      | some (_, t2) =>
        match t2 with
        | '.' :: t2 =>
          match parseMainNum t2 with
          | none => none
          | some (_, t3) =>
            match t3 with
            | [] => some []
            | '+' :: b =>
              if (splitOnDot b).all validBuildId then some [] else none
            | '-' :: r =>
              let pre := r.takeWhile (· ≠ '+')
              let preIds := splitOnDot pre
              if preIds.all validPreId then
                match r.dropWhile (· ≠ '+') with
                | [] => some preIds
                | '+' :: b => if (splitOnDot b).all validBuildId then some preIds else none
                | _ => none
              else none
            | _ => none
        | _ => none
    | _ => none

/-- `semver.prerelease(v)` is truthy iff `v` parses as a strict semver with a
nonempty prerelease list. -/
def hasPrerelease (s : Str) : Bool :=
  match semverParsePrerelease s with
  | some pre => pre ≠ []
  | none => false

/-- `semver.diff` on the two coerced versions. `semver.coerce` never produces
prerelease identifiers (no `includePrerelease`), so for the inputs arising in
`determineChangeType` the library returns `null` for equal versions and
`'major'`/`'minor'`/`'patch'` for the first differing component. -/
def semverDiff (a b : Nat × Nat × Nat) : Option Str :=
  if a = b then none
  else if a.1 ≠ b.1 then some (str "major")
  else if a.2.1 ≠ b.2.1 then some (str "minor")
  else some (str "patch")

/-- `determineChangeType` (version.ts:15-53). -/
def determineChangeType (oldVersion newVersion : Str) : ChangeType :=
  let cleanOld := cleanVersion oldVersion
  let cleanNew := cleanVersion newVersion
  match coerce cleanOld, coerce cleanNew with
  | none, _ => .other   -- `return cleanOld !== cleanNew ? 'other' : 'other'`
  | some _, none => .other
  | some semverOld, some semverNew =>
    if hasPrerelease cleanNew then .prerelease
    else
      match semverDiff semverOld semverNew with
      | none => .other
      | some diff =>
        if strIncludes diff (str "major") then .major
        else if strIncludes diff (str "minor") then .minor
        else if strIncludes diff (str "patch") then .patch
        else if strIncludes diff (str "prerelease") || strIncludes diff (str "pre") then .prerelease
        else .other

/-- The body of the first `compareVersions` loop (version.ts:68-95), for one
`[name, oldVersion]` entry of `oldDeps`. The `if (!newVersion)` test is a JS
falsiness check, so both a missing entry and an empty-string entry in
`newDeps` take the "removed" branch. -/
def compareVersionsRemoval (newDeps : List (Str × Str)) (ecosystem : Ecosystem)
    (file : Str) (dependencyType : DependencyType) (p : Str × Str) : Option DependencyChange :=
  match jsMapGet newDeps p.1 with
  | none =>
    some { name := p.1, ecosystem, file, oldVersion := some p.2,
           newVersion := none, changeType := .removed, dependencyType }
  | some newVersion =>
    if newVersion = [] then
      some { name := p.1, ecosystem, file, oldVersion := some p.2,
             newVersion := none, changeType := .removed, dependencyType }
    else if cleanVersion p.2 ≠ cleanVersion newVersion then
      some { name := p.1, ecosystem, file, oldVersion := some p.2,
             newVersion := some newVersion,
             changeType := determineChangeType p.2 newVersion, dependencyType }
    else none

/-- The body of the second `compareVersions` loop (version.ts:98-110), for
one `[name, newVersion]` entry of `newDeps`. -/
def compareVersionsAddition (oldDeps : List (Str × Str)) (ecosystem : Ecosystem)
    (file : Str) (dependencyType : DependencyType) (p : Str × Str) : Option DependencyChange :=
  if jsMapHas oldDeps p.1 then none
  else some { name := p.1, ecosystem, file, oldVersion := none,
              newVersion := some p.2, changeType := .added, dependencyType }

/-- `compareVersions` (version.ts:58-113): removals/updates over `oldDeps`
in insertion order, then additions over `newDeps`. -/
def compareVersions (oldDeps newDeps : List (Str × Str)) (ecosystem : Ecosystem)
    (file : Str) (dependencyType : DependencyType) : List DependencyChange :=
  oldDeps.filterMap (compareVersionsRemoval newDeps ecosystem file dependencyType)
  ++ newDeps.filterMap (compareVersionsAddition oldDeps ecosystem file dependencyType)

/-! ## `src/parsers/python.ts` -/

/-- Maximum allowed nesting depth for TOML/JSON structures (python.ts:7). -/
def MAX_NESTING_DEPTH : Int := 20

/-- Maximum number of dependencies to process per file (python.ts:12). -/
def MAX_DEPENDENCIES : Nat := 5000

/-- Loop body of `checkNestingDepth` (python.ts:17-30): a raw bracket
counter with no string-literal tracking; only exceeding `maxDepth` fails,
a negative counter does not. -/
def checkNestingDepthGo (maxDepth : Int) : Int → Str → Bool
  | _, [] => true
  | depth, c :: cs =>
    if c = '{' ∨ c = '[' then
      if depth + 1 > maxDepth then false
      else checkNestingDepthGo maxDepth (depth + 1) cs
    else if c = '}' ∨ c = ']' then checkNestingDepthGo maxDepth (depth - 1) cs
    else checkNestingDepthGo maxDepth depth cs

def checkNestingDepth (content : Str) (maxDepth : Int) : Bool :=
  checkNestingDepthGo maxDepth 0 content

/-- `safeTomlParse` (python.ts:35-40), with `toml.parse` supplied as an
oracle; `none` from the oracle models a thrown exception, which the calling
parser's `catch` turns into `[]` exactly as the depth-check `null` does. -/
def safeTomlParse {T : Type} (tomlParse : Str → Option T) (content : Str) : Option T :=
  if checkNestingDepth content MAX_NESTING_DEPTH then tomlParse content else none

/-- The character class `[a-zA-Z0-9_-]` of the python name regexes. -/
def isNameChar (c : Char) : Bool :=
  isDigitChar c || ('a' ≤ c ∧ c ≤ 'z') || ('A' ≤ c ∧ c ≤ 'Z') || c = '_' || c = '-'

/-- The character class `[=<>!~]` of the requirement-specifier regexes. -/
def isReqOpChar (c : Char) : Bool :=
  c = '=' || c = '<' || c = '>' || c = '!' || c = '~'

/-- The version character class `[^\s;#]` of the requirements regex. -/
def isReqVerChar (c : Char) : Bool :=
  ¬ isJsSpace c && c ≠ ';' && c ≠ '#'

/-- The requirements.txt specifier regex (python.ts:65)
`/^([a-zA-Z0-9_-]+(?:\[[^\]]+\])?)\s*([=<>!~]+)\s*([^\s;#]+)/`, modelled with
greedy runs (the character classes of adjacent groups are disjoint, so
backtracking between them cannot produce a different accepted match).
Returns the extras-stripped name (`match[1].replace(/\[.*\]/, '')`) and
`match[3]`. -/
def reqLineMatch (trimmed : Str) : Option (Str × Str) :=
  let nameRun := trimmed.takeWhile isNameChar
  if nameRun = [] then none
  else
    let rest := trimmed.dropWhile isNameChar
    -- optional extras group `(?:\[[^\]]+\])?`
    let rest :=
      match rest with
      | '[' :: t =>
        let inner := t.takeWhile (· ≠ ']')
        if inner ≠ [] ∧ (t.dropWhile (· ≠ ']')) ≠ [] then
          (t.dropWhile (· ≠ ']')).tail
        else rest
      | _ => rest
    let r1 := rest.dropWhile isJsSpace
    let opRun := r1.takeWhile isReqOpChar
    if opRun = [] then none
    else
      let r2 := (r1.dropWhile isReqOpChar).dropWhile isJsSpace
      let verRun := r2.takeWhile isReqVerChar
      if verRun = [] then none else some (nameRun, verRun)

/-- One loop iteration of `parseRequirementsTxt` (python.ts:50-77). -/
def reqProcessLine (deps : List (Str × Str)) (line : Str) : List (Str × Str) :=
  let trimmed := jsTrim line
  if trimmed = [] then deps
  else if strStartsWith trimmed (str "#") then deps
  else if strStartsWith trimmed (str "-") then deps
  else if strIncludes trimmed (str "://") then deps
  else if strStartsWith trimmed (str ".") then deps
  else if strStartsWith trimmed (str "/") then deps
  else
    match reqLineMatch trimmed with
    | some (name, version) => jsMapSet deps (jsToLower name) version
    | none =>
      let nameMatch := trimmed.takeWhile isNameChar
      if nameMatch ≠ [] then jsMapSet deps (jsToLower nameMatch) (str "*")
      else deps

/-- `parseRequirementsTxt` (python.ts:45-87). -/
def parseRequirementsTxt (content : Str) : List ParsedDependencies :=
  let deps := (content.splitOn '\n').foldl reqProcessLine []
  if jsMapSize deps = 0 then []
  else [{ dependencies := deps, dependencyType := .production }]

/-- A TOML dependency value `string | { version?: string }`. -/
inductive TomlDep where
  | vstr (s : Str)
  | vobj (version : Option Str)
  deriving DecidableEq, Repr

/-- `typeof value === 'string' ? value : value.version || '*'` (the `||`
also replaces an empty-string `version` field by `'*'`). -/
def tomlDepVersion : TomlDep → Str
  | .vstr s => s
  | .vobj (some v) => if v = [] then str "*" else v
  | .vobj none => str "*"

structure PyprojectProject where
  dependencies : Option (List Str)
  optionalDependencies : Option (List (Str × List Str))
  deriving Repr

structure PoetryGroup where
  dependencies : Option (List (Str × TomlDep))
  deriving Repr

structure PyprojectPoetry where
  dependencies : Option (List (Str × TomlDep))
  devDependencies : Option (List (Str × TomlDep))
  group : Option (List (Str × PoetryGroup))
  deriving Repr

structure PyprojectToml where
  project : Option PyprojectProject
  toolPoetry : Option PyprojectPoetry
  deriving Repr

/-- The PEP 621 dependency regex (python.ts:120)
`/^([a-zA-Z0-9_-]+)(?:\[.*\])?\s*([=<>!~]+)?\s*(.+)?$/`. `.` does not match
newlines and `$` in a non-multiline JS regex only matches at the very end,
so a remaining tail containing a newline after the whitespace/operator runs
makes the whole regex fail. Returns the lowercased-later name (`match[1]`)
and `match[3] || '*'`. -/
def pep621Match (dep : Str) : Option (Str × Str) :=
  let nameRun := dep.takeWhile isNameChar
  if nameRun = [] then none
  else
    let rest := dep.dropWhile isNameChar
    -- optional extras group `(?:\[.*\])?`, greedy to the last `]` before a newline
    let rest :=
      match rest with
      | '[' :: t =>
        let line := t.takeWhile (· ≠ '\n')
        if ']' ∈ line then
          (line.reverse.takeWhile (· ≠ ']')).reverse ++ t.drop line.length
        else rest
      | _ => rest
    let r1 := rest.dropWhile isJsSpace
    let r2 := r1.dropWhile isReqOpChar
    let r3 := r2.dropWhile isJsSpace
    if r3 = [] then some (nameRun, str "*")
    else if '\n' ∈ r3 then none
    else some (nameRun, r3)

/-- The `for (const dep of ...)` loops of the PEP 621 sections
(python.ts:118-127 and 137-146): `break` once `totalDeps` reaches
`MAX_DEPENDENCIES`, count every insertion. -/
def collectPep621 : List Str → List (Str × Str) → Nat → (List (Str × Str) × Nat)
  | [], deps, totalDeps => (deps, totalDeps)
  | dep :: rest, deps, totalDeps =>
    if totalDeps ≥ MAX_DEPENDENCIES then (deps, totalDeps)
    else
      match pep621Match dep with
      | some (name, version) =>
        collectPep621 rest (jsMapSet deps (jsToLower name) version) (totalDeps + 1)
      | none => collectPep621 rest deps totalDeps

/-- The nested loop over `Object.values(project['optional-dependencies'])`
(python.ts:136-147); the inner `break` only leaves the current group. -/
def collectPep621Groups : List (Str × List Str) → List (Str × Str) → Nat → (List (Str × Str) × Nat)
  | [], deps, totalDeps => (deps, totalDeps)
  | (_, group) :: rest, deps, totalDeps =>
    let (deps', totalDeps') := collectPep621 group deps totalDeps
    collectPep621Groups rest deps' totalDeps'

/-- The Poetry-style `for (const [name, value] of Object.entries(...))`
loops (python.ts:159-163, 172-175, 186-189): no `MAX_DEPENDENCIES` check;
`skipPython` models the `name.toLowerCase() === 'python'` `continue` that
only the `poetry.dependencies` loop performs. -/
def collectTomlDepsGo (skipPython : Bool) : List (Str × TomlDep) → List (Str × Str) → List (Str × Str)
  | [], deps => deps
  | p :: rest, deps =>
    if skipPython ∧ jsToLower p.1 = str "python" then collectTomlDepsGo skipPython rest deps
    else collectTomlDepsGo skipPython rest (jsMapSet deps (jsToLower p.1) (tomlDepVersion p.2))

def collectTomlDeps (skipPython : Bool) (entries : List (Str × TomlDep)) : List (Str × Str) :=
  collectTomlDepsGo skipPython entries []

/-- One iteration of the Poetry-group loop (python.ts:183-198). -/
def poetryGroupStep (r : List ParsedDependencies) (gp : Str × PoetryGroup) :
    List ParsedDependencies :=
  match gp.2.dependencies with
  | some entries =>
    let deps := collectTomlDeps false entries
    if jsMapSize deps > 0 then
      let isDevGroup := gp.1 = str "dev" ∨ gp.1 = str "test" ∨ gp.1 = str "lint" ∨ gp.1 = str "typing"
      r ++ [{ dependencies := deps,
              dependencyType := if isDevGroup then .development else .production }]
    else r
  | none => r

/-- The PEP 621 sections of `parsePyprojectToml` (python.ts:115-151): the
`[project] dependencies` group then the optional-dependency groups, sharing
the `totalDeps` counter. -/
def pyprojectPep621Section (p : PyprojectToml) : List ParsedDependencies :=
  let res1t1 : List ParsedDependencies × Nat :=
    match p.project.bind (·.dependencies) with
    | some depList =>
      let (deps, t) := collectPep621 depList [] 0
      ((if jsMapSize deps > 0 then [{ dependencies := deps, dependencyType := .production }] else []), t)
    | none => ([], 0)
  match p.project.bind (·.optionalDependencies) with
  | some groups =>
    let (devDeps, _) := collectPep621Groups groups [] res1t1.2
    res1t1.1 ++
      (if jsMapSize devDeps > 0 then [{ dependencies := devDeps, dependencyType := .development }] else [])
  | none => res1t1.1

/-- The Poetry sections of `parsePyprojectToml` (python.ts:154-200),
appending to the PEP 621 results. -/
def pyprojectPoetrySection (poetry : PyprojectPoetry) (r0 : List ParsedDependencies) :
    List ParsedDependencies :=
  let r : List ParsedDependencies :=
    match poetry.dependencies with
    | some entries =>
      let deps := collectTomlDeps true entries
      if jsMapSize deps > 0 then r0 ++ [{ dependencies := deps, dependencyType := .production }] else r0
    | none => r0
  let r : List ParsedDependencies :=
    match poetry.devDependencies with
    | some entries =>
      let deps := collectTomlDeps false entries
      if jsMapSize deps > 0 then r ++ [{ dependencies := deps, dependencyType := .development }] else r
    | none => r
  match poetry.group with
  | some groups => groups.foldl poetryGroupStep r
  | none => r

/-- Body of `parsePyprojectToml` after `safeTomlParse` (python.ts:112-202). -/
def parsePyprojectFromToml (p : PyprojectToml) : List ParsedDependencies :=
  match p.toolPoetry with
  | none => pyprojectPep621Section p
  | some poetry => pyprojectPoetrySection poetry (pyprojectPep621Section p)

/-- `parsePyprojectToml` (python.ts:106-206) with `toml.parse` as oracle. -/
def parsePyprojectToml (tomlParse : Str → Option PyprojectToml) (content : Str) :
    List ParsedDependencies :=
  match safeTomlParse tomlParse content with
  | none => []
  | some p => parsePyprojectFromToml p

structure Pipfile where
  packages : Option (List (Str × TomlDep))
  devPackages : Option (List (Str × TomlDep))
  deriving Repr

/-- `parsePipfile` (python.ts:216-250) with `toml.parse` as oracle. -/
def parsePipfile (tomlParse : Str → Option Pipfile) (content : Str) : List ParsedDependencies :=
  match safeTomlParse tomlParse content with
  | none => []
  | some pipfile =>
    let res1 :=
      match pipfile.packages with
      | some entries =>
        let deps := collectTomlDeps false entries
        if jsMapSize deps > 0 then [{ dependencies := deps, dependencyType := .production }] else []
      | none => []
    match pipfile.devPackages with
    | some entries =>
      let deps := collectTomlDeps false entries
      res1 ++ (if jsMapSize deps > 0 then [{ dependencies := deps, dependencyType := .development }] else [])
    | none => res1

structure PoetryLockPackage where
  name : Str
  version : Str
  category : Option Str
  deriving Repr

structure PoetryLock where
  package : Option (List PoetryLockPackage)
  deriving Repr

/-- The `for (const pkg of lock.package)` loop of `parsePoetryLock`
(python.ts:275-281), building the production/development maps. -/
def poetryLockGo : List PoetryLockPackage → (List (Str × Str) × List (Str × Str)) →
    List (Str × Str) × List (Str × Str)
  | [], st => st
  | pkg :: rest, st =>
    if pkg.category = some (str "dev") then
      poetryLockGo rest (st.1, jsMapSet st.2 (jsToLower pkg.name) pkg.version)
    else
      poetryLockGo rest (jsMapSet st.1 (jsToLower pkg.name) pkg.version, st.2)

/-- `parsePoetryLock` (python.ts:265-296) with `toml.parse` as oracle. -/
def parsePoetryLock (tomlParse : Str → Option PoetryLock) (content : Str) : List ParsedDependencies :=
  match safeTomlParse tomlParse content with
  | none => []
  | some lock =>
    let st := poetryLockGo (lock.package.getD []) ([], [])
    (if jsMapSize st.1 > 0 then [{ dependencies := st.1, dependencyType := .production }] else [])
    ++ (if jsMapSize st.2 > 0 then [{ dependencies := st.2, dependencyType := .development }] else [])

/-! ## `src/parsers/node.ts` (checkJsonDepth, parsePackageJson) -/

/-- Maximum allowed JSON nesting depth (node.ts). -/
def MAX_JSON_DEPTH : Int := 20

/-- Loop body of `checkJsonDepth` (node.ts:33-70): tracks string literals
and escapes; fails when the depth counter exceeds `maxDepth` after an
increment or goes negative after a decrement. -/
def checkJsonDepthGo (maxDepth : Int) : Bool → Bool → Int → Str → Bool
  | _, _, _, [] => true
  | inString, escape, depth, c :: cs =>
    if escape then checkJsonDepthGo maxDepth inString false depth cs
    else if c = '\\' ∧ inString then checkJsonDepthGo maxDepth inString true depth cs
    else if c = '"' then checkJsonDepthGo maxDepth (!inString) false depth cs
    else if inString then checkJsonDepthGo maxDepth inString false depth cs
    else if c = '{' ∨ c = '[' then
      if depth + 1 > maxDepth then false
      else checkJsonDepthGo maxDepth inString false (depth + 1) cs
    else if c = '}' ∨ c = ']' then
      if depth - 1 < 0 then false
      else checkJsonDepthGo maxDepth inString false (depth - 1) cs
    else checkJsonDepthGo maxDepth inString false depth cs

def checkJsonDepth (content : Str) (maxDepth : Int) : Bool :=
  checkJsonDepthGo maxDepth false false 0 content

structure PackageJsonDeps where
  dependencies : Option (List (Str × Str))
  devDependencies : Option (List (Str × Str))
  optionalDependencies : Option (List (Str × Str))
  peerDependencies : Option (List (Str × Str))
  deriving Repr

/-- `parsePackageJson` (node.ts:75-119) with `JSON.parse` as oracle.
Each `Record<string, string>` field is a JS object, so its entry list has
pairwise-distinct keys in real executions; `new Map(Object.entries(...))`
is modelled by `jsMapFromList`. -/
def parsePackageJson (jsonParse : Str → Option PackageJsonDeps) (content : Str) :
    List ParsedDependencies :=
  if ¬ checkJsonDepth content MAX_JSON_DEPTH then []
  else
    match jsonParse content with
    | none => []
    | some pkg =>
      (match pkg.dependencies with
       | some d => if d.length > 0 then
           [{ dependencies := jsMapFromList d, dependencyType := .production }] else []
       | none => [])
      ++ (match pkg.devDependencies with
       | some d => if d.length > 0 then
           [{ dependencies := jsMapFromList d, dependencyType := .development }] else []
       | none => [])
      ++ (match pkg.optionalDependencies with
       | some d => if d.length > 0 then
           [{ dependencies := jsMapFromList d, dependencyType := .optional }] else []
       | none => [])
      ++ (match pkg.peerDependencies with
       | some d => if d.length > 0 then
           [{ dependencies := jsMapFromList d, dependencyType := .peer }] else []
       | none => [])

/-! ## `src/parsers/java.ts` (parsePomXml) -/

structure PomDep where
  groupId : Option (List Str)
  artifactId : Option (List Str)
  version : Option (List Str)
  scope : Option (List Str)
  deriving Repr

structure PomDependenciesBlock where
  dependency : Option (List PomDep)
  deriving Repr

structure PomDepMgmtBlock where
  dependencies : Option (List PomDependenciesBlock)
  deriving Repr

structure PomProject where
  dependencies : Option (List PomDependenciesBlock)
  dependencyManagement : Option (List PomDepMgmtBlock)
  deriving Repr

structure PomXml where
  project : Option PomProject
  deriving Repr

/-- `dep.groupId?.[0]` on the xml2js array-wrapped field. -/
def pomSel (o : Option (List Str)) : Option Str := o.bind List.head?

/-- JS truthiness of an optional string: `undefined` and `''` are falsy. -/
def truthyStr : Option Str → Option Str
  | some s => if s = [] then none else some s
  | none => none

/-- `parsePomXml` (java.ts:35-118) with the xml2js `parseString` result as
oracle; `none` models a parse error (the callback leaves `parsed` null) or a
thrown exception (caught, returning `[]`). -/
def parsePomXml (xmlParse : Str → Option PomXml) (content : Str) : List ParsedDependencies :=
  match xmlParse content with
  | none => []
  | some parsed =>
    match parsed.project with
    | none => []
    | some project =>
      let dependencies := ((project.dependencies.bind List.head?).bind (·.dependency)).getD []
      let (prodDeps, testDeps) :=
        dependencies.foldl (fun st dep =>
          match truthyStr (pomSel dep.groupId), truthyStr (pomSel dep.artifactId),
                truthyStr (pomSel dep.version) with
          | some groupId, some artifactId, some version =>
            if strStartsWith version (str "$\x7b") then st
            else
              let name := groupId ++ str ":" ++ artifactId
              if pomSel dep.scope = some (str "test") then (st.1, jsMapSet st.2 name version)
              else (jsMapSet st.1 name version, st.2)
          | _, _, _ => st) (([] : List (Str × Str)), ([] : List (Str × Str)))
      let managedDeps :=
        ((((project.dependencyManagement.bind List.head?).bind
          (·.dependencies)).bind List.head?).bind (·.dependency)).getD []
      let prodDeps :=
        managedDeps.foldl (fun pd dep =>
          match truthyStr (pomSel dep.groupId), truthyStr (pomSel dep.artifactId),
                truthyStr (pomSel dep.version) with
          | some groupId, some artifactId, some version =>
            if strStartsWith version (str "$\x7b") then pd
            else
              let name := groupId ++ str ":" ++ artifactId
              if ¬ jsMapHas pd name ∧ ¬ jsMapHas testDeps name then jsMapSet pd name version
              else pd
          | _, _, _ => pd) prodDeps
      (if jsMapSize prodDeps > 0 then [{ dependencies := prodDeps, dependencyType := .production }] else [])
      ++ (if jsMapSize testDeps > 0 then [{ dependencies := testDeps, dependencyType := .test }] else [])

/-! ## `deduplicateChanges` (the action entry point, copied in
`__tests__/parsers/node.test.ts:473-494`) -/

/-- `change.file.includes('lock') || change.file.includes('.lock')`. -/
def isLockFile (file : Str) : Bool :=
  strIncludes file (str "lock") || strIncludes file (str ".lock")

/-- The dedup key `` `${change.ecosystem}:${change.name}` ``. -/
def dedupKey (c : DependencyChange) : Str :=
  ecosystemStr c.ecosystem ++ str ":" ++ c.name

/-- The loop body of `deduplicateChanges` (node.test.ts:476-490): store the
first change per key; a later colliding change replaces the stored one only
when the stored one is from a lock file and the new one is not. -/
def dedupStep (seen : List (Str × DependencyChange)) (change : DependencyChange) :
    List (Str × DependencyChange) :=
  let key := dedupKey change
  match jsMapGet seen key with
  | none => jsMapSet seen key change
  | some existing =>
    if isLockFile existing.file ∧ ¬ isLockFile change.file then jsMapSet seen key change
    else seen

/-- `deduplicateChanges` (node.test.ts:473-494): insertion-ordered `Map`
keyed by `ecosystem:name`, then `Array.from(seen.values())`. -/
def deduplicateChanges (changes : List DependencyChange) : List DependencyChange :=
  (changes.foldl dedupStep []).map (·.2)

example : cleanVersion (str "^1.0.0") = str "1.0.0" := by decide
example : coerce (str "1.0.0") = some (1, 0, 0) := by decide
example : coerce (str "") = none := by decide
example : coerce (str "not-a-version") = none := by decide
example : hasPrerelease (str "2.0.0-alpha.1") = true := by decide
example : hasPrerelease (str "2.0.0") = false := by decide
example : determineChangeType (str "1.0.0") (str "2.0.0") = .major := by decide
example : determineChangeType (str "1.2.3") (str "1.3.0") = .minor := by decide
example : determineChangeType (str "1.2.3") (str "1.2.4") = .patch := by decide
example : determineChangeType (str "1.0.0") (str "1.0.1-beta.1") = .prerelease := by decide
example : determineChangeType (str "not-a-version") (str "also-not") = .other := by decide
example : determineChangeType (str "1.0.0") (str "2.0.0-alpha.1") = .prerelease := by decide

example :
    parseRequirementsTxt (str "# comment\nrequests==2.31.0\nflask>=2.0.0\nnumpy\n") =
      [{ dependencies := [(str "requests", str "2.31.0"), (str "flask", str "2.0.0"),
                          (str "numpy", str "*")],
         dependencyType := .production }] := by decide

example :
    parseRequirementsTxt (str "requests[security]==2.31.0") =
      [{ dependencies := [(str "requests", str "2.31.0")], dependencyType := .production }] := by
  decide

example : parseRequirementsTxt (str "") = [] := by decide
example : parseRequirementsTxt (str "./local\n/abs/path\nhttps://example.com/p.whl") = [] := by decide
example : checkNestingDepth (str "]]]") 20 = true := by decide
example : checkJsonDepth (str "]") 20 = false := by decide
example : checkJsonDepth (str "\"]]]]\"") 20 = true := by decide
example : pep621Match (str "requests>=2.31.0") = some (str "requests", str "2.31.0") := by decide
example : pep621Match (str "fancy-name[extra1]") = some (str "fancy-name", str "*") := by decide

/-! ## Helper lemmas -/

lemma head?_dropWhile_not (p : Char → Bool) (l : Str) :
    ∀ c, (l.dropWhile p).head? = some c → p c = false := by
  induction l with
  | nil => intro c h; simp [List.dropWhile] at h
  | cons a t ih =>
    intro c h
    by_cases hp : p a
    · rw [List.dropWhile_cons, if_pos hp] at h
      exact ih c h
    · rw [List.dropWhile_cons, if_neg hp] at h
      simp only [List.head?_cons, Option.some.injEq] at h
      subst h
      simpa using hp

lemma exists_append_dropWhile (p : Char → Bool) (l : Str) :
    ∃ t, l = t ++ l.dropWhile p := by
  induction l with
  | nil => exact ⟨[], rfl⟩
  | cons a t ih =>
    by_cases hp : p a
    · obtain ⟨u, hu⟩ := ih
      exact ⟨a :: u, by rw [List.dropWhile_cons, if_pos hp]; simpa using hu⟩
    · exact ⟨[], by rw [List.dropWhile_cons, if_neg hp]; rfl⟩

lemma dropWhile_eq_self_of_head (p : Char → Bool) (l : Str)
    (h : ∀ c, l.head? = some c → p c = false) : l.dropWhile p = l := by
  cases l with
  | nil => rfl
  | cons a t =>
    have ha := h a rfl
    rw [List.dropWhile_cons, if_neg (by simp [ha])]

/-- The head of `jsTrim s`, when it exists, is the head of
`s.dropWhile isJsSpace` (trimming the right end cannot change the head). -/
lemma jsTrim_head? (s : Str) (h : jsTrim s ≠ []) :
    (jsTrim s).head? = (s.dropWhile isJsSpace).head? := by
  unfold jsTrim at *
  obtain ⟨t, ht⟩ := exists_append_dropWhile isJsSpace (s.dropWhile isJsSpace).reverse
  set u := s.dropWhile isJsSpace with hu
  set w := u.reverse.dropWhile isJsSpace with hw
  have hx : u = w.reverse ++ t.reverse := by
    have := congrArg List.reverse ht
    simpa [List.reverse_append] using this
  rw [hx]
  cases hwr : w.reverse with
  | nil => exact absurd (by simp [hw, hwr]) h
  | cons b bs => simp [hwr]

lemma jsTrim_dropWhile (s : Str) : (jsTrim s).dropWhile isJsSpace = jsTrim s := by
  apply dropWhile_eq_self_of_head
  intro c hc
  have hne : jsTrim s ≠ [] := by
    intro hnil; rw [hnil] at hc; simp at hc
  rw [jsTrim_head? s hne] at hc
  exact head?_dropWhile_not isJsSpace s c hc

lemma jsTrim_idem (s : Str) : jsTrim (jsTrim s) = jsTrim s := by
  conv_lhs => rw [jsTrim, jsTrim_dropWhile s]
  unfold jsTrim
  rw [List.reverse_reverse]
  congr 1
  apply dropWhile_eq_self_of_head
  intro c hc
  exact head?_dropWhile_not isJsSpace (s.dropWhile isJsSpace).reverse c hc

/-- Cleaned versions are already trimmed. -/
lemma jsTrim_cleanVersion (v : Str) : jsTrim (cleanVersion v) = cleanVersion v := by
  unfold cleanVersion
  exact jsTrim_idem _

/-! ## C6: spec-side depth traces -/

/-- Spec-side raw bracket counter: one step of the depth count with no
string-literal tracking (what python.ts's guard actually counts). -/
def bracketStep (d : Int) (c : Char) : Int :=
  if c = '{' ∨ c = '[' then d + 1 else if c = '}' ∨ c = ']' then d - 1 else d

/-- Raw bracket depth after the first `n` characters of `content`. -/
def rawPrefixDepth (content : Str) (n : Nat) : Int :=
  (content.take n).foldl bracketStep 0

structure JsonScanState where
  inString : Bool
  escape : Bool
  depth : Int
  deriving DecidableEq, Repr

/-- Spec-side scanner step for the JSON guard: the depth counter as
described by the spec, tracking string literals and escapes. -/
def jsonScanStep (s : JsonScanState) (c : Char) : JsonScanState :=
  if s.escape then { s with escape := false }
  else if c = '\\' ∧ s.inString then { s with escape := true }
  else if c = '"' then { s with inString := !s.inString }
  else if s.inString then s
  else if c = '{' ∨ c = '[' then { s with depth := s.depth + 1 }
  else if c = '}' ∨ c = ']' then { s with depth := s.depth - 1 }
  else s

/-- Scanner state after the first `n` characters of `content`. -/
def jsonPrefixState (content : Str) (n : Nat) : JsonScanState :=
  (content.take n).foldl jsonScanStep ⟨false, false, 0⟩

lemma foldl_prefix_shift {α : Type} (P : α → Prop) (step : α → Char → α)
    (c : Char) (cs : Str) (st : α) (hP : P st) :
    (∀ n, P (((c :: cs).take n).foldl step st)) ↔
      (∀ n, P ((cs.take n).foldl step (step st c))) := by
  constructor
  · intro hall k
    have h := hall (k + 1)
    rwa [List.take_succ_cons, List.foldl_cons] at h
  · intro hall n
    cases n with
    | zero => simpa using hP
    | succ k =>
      rw [List.take_succ_cons, List.foldl_cons]
      exact hall k

lemma checkNestingDepthGo_iff (max : Int) :
    ∀ (s : Str) (d : Int), d ≤ max →
      (checkNestingDepthGo max d s = true ↔
        ∀ n, (s.take n).foldl bracketStep d ≤ max) := by
  intro s
  induction s with
  | nil =>
    intro d hd
    constructor
    · intro _ n; simpa using hd
    · intro _; rfl
  | cons c cs ih =>
    intro d hd
    by_cases h1 : c = '{' ∨ c = '['
    · have hb : bracketStep d c = d + 1 := by simp [bracketStep, h1]
      by_cases h2 : d + 1 > max
      · have hgo : checkNestingDepthGo max d (c :: cs) = false := by
          simp [checkNestingDepthGo, h1, h2]
        rw [hgo]
        simp only [Bool.false_eq_true, false_iff, not_forall]
        refine ⟨1, ?_⟩
        have : ((c :: cs).take 1).foldl bracketStep d = d + 1 := by
          simp [List.take_succ_cons, hb]
        rw [this]
        omega
      · have hgo : checkNestingDepthGo max d (c :: cs) = checkNestingDepthGo max (d + 1) cs := by
          simp [checkNestingDepthGo, h1, h2]
        rw [hgo, ih (d + 1) (by omega)]
        have h := foldl_prefix_shift (fun x : Int => x ≤ max) bracketStep c cs d hd
        rw [hb] at h
        exact h.symm
    · by_cases h3 : c = '}' ∨ c = ']'
      · have hb : bracketStep d c = d - 1 := by simp [bracketStep, h1, h3]
        have hgo : checkNestingDepthGo max d (c :: cs) = checkNestingDepthGo max (d - 1) cs := by
          simp [checkNestingDepthGo, h1, h3]
        rw [hgo, ih (d - 1) (by omega)]
        have h := foldl_prefix_shift (fun x : Int => x ≤ max) bracketStep c cs d hd
        rw [hb] at h
        exact h.symm
      · have hb : bracketStep d c = d := by simp [bracketStep, h1, h3]
        have hgo : checkNestingDepthGo max d (c :: cs) = checkNestingDepthGo max d cs := by
          simp [checkNestingDepthGo, h1, h3]
        rw [hgo, ih d hd]
        have h := foldl_prefix_shift (fun x : Int => x ≤ max) bracketStep c cs d hd
        rw [hb] at h
        exact h.symm

lemma checkJsonDepthGo_iff (max : Int) :
    ∀ (s : Str) (ins esc : Bool) (d : Int), 0 ≤ d → d ≤ max →
      (checkJsonDepthGo max ins esc d s = true ↔
        ∀ n, 0 ≤ ((s.take n).foldl jsonScanStep ⟨ins, esc, d⟩).depth ∧
             ((s.take n).foldl jsonScanStep ⟨ins, esc, d⟩).depth ≤ max) := by
  intro s
  induction s with
  | nil =>
    intro ins esc d h0 h1
    constructor
    · intro _ n; simpa using ⟨h0, h1⟩
    · intro _; rfl
  | cons c cs ih =>
    intro ins esc d h0 h1
    have hshift := foldl_prefix_shift
      (fun x : JsonScanState => 0 ≤ x.depth ∧ x.depth ≤ max) jsonScanStep c cs
      ⟨ins, esc, d⟩ ⟨h0, h1⟩
    by_cases hesc : esc = true
    · have hgo : checkJsonDepthGo max ins esc d (c :: cs) = checkJsonDepthGo max ins false d cs := by
        simp [checkJsonDepthGo, hesc]
      have hstep : jsonScanStep ⟨ins, esc, d⟩ c = ⟨ins, false, d⟩ := by
        simp [jsonScanStep, hesc]
      rw [hstep] at hshift
      rw [hgo, ih ins false d h0 h1]
      exact hshift.symm
    · have hesc' : esc = false := by simpa using hesc
      subst hesc'
      by_cases hbs : c = '\\' ∧ ins = true
      · have hgo : checkJsonDepthGo max ins false d (c :: cs) = checkJsonDepthGo max ins true d cs := by
          simp [checkJsonDepthGo, hbs.1, hbs.2]
        have hstep : jsonScanStep ⟨ins, false, d⟩ c = ⟨ins, true, d⟩ := by
          simp [jsonScanStep, hbs.1, hbs.2]
        rw [hstep] at hshift
        rw [hgo, ih ins true d h0 h1]
        exact hshift.symm
      · by_cases hq : c = '"'
        · subst hq
          have hgo : checkJsonDepthGo max ins false d ('"' :: cs) =
              checkJsonDepthGo max (!ins) false d cs := by
            simp [checkJsonDepthGo]
          have hstep : jsonScanStep ⟨ins, false, d⟩ '"' = ⟨!ins, false, d⟩ := by
            simp [jsonScanStep]
          rw [hstep] at hshift
          rw [hgo, ih (!ins) false d h0 h1]
          exact hshift.symm
        · by_cases hins : ins = true
          · have hc_ne : ¬ c = '\\' := fun hc => hbs ⟨hc, hins⟩
            have hgo : checkJsonDepthGo max ins false d (c :: cs) =
                checkJsonDepthGo max ins false d cs := by
              simp [checkJsonDepthGo, hq, hins, hc_ne]
            have hstep : jsonScanStep ⟨ins, false, d⟩ c = ⟨ins, false, d⟩ := by
              simp [jsonScanStep, hq, hins, hc_ne]
            rw [hstep] at hshift
            rw [hgo, ih ins false d h0 h1]
            exact hshift.symm
          · have hins' : ins = false := by simpa using hins
            subst hins'
            by_cases hop : c = '{' ∨ c = '['
            · have hstep : jsonScanStep ⟨false, false, d⟩ c = ⟨false, false, d + 1⟩ := by
                rcases hop with h | h <;> simp [jsonScanStep, h]
              by_cases hd2 : d + 1 > max
              · have hgo : checkJsonDepthGo max false false d (c :: cs) = false := by
                  rcases hop with h | h <;> simp [checkJsonDepthGo, h, hd2]
                rw [hgo]
                simp only [Bool.false_eq_true, false_iff, not_forall]
                refine ⟨1, ?_⟩
                have hdep : (((c :: cs).take 1).foldl jsonScanStep ⟨false, false, d⟩).depth = d + 1 := by
                  simp [List.take_succ_cons, hstep]
                rw [hdep]
                intro hcon
                omega
              · have hgo : checkJsonDepthGo max false false d (c :: cs) =
                    checkJsonDepthGo max false false (d + 1) cs := by
                  rcases hop with h | h <;> simp [checkJsonDepthGo, h, hd2]
                rw [hstep] at hshift
                rw [hgo, ih false false (d + 1) (by omega) (by omega)]
                exact hshift.symm
            · by_cases hcl : c = '}' ∨ c = ']'
              · have hstep : jsonScanStep ⟨false, false, d⟩ c = ⟨false, false, d - 1⟩ := by
                  rcases hcl with h | h <;> simp [jsonScanStep, h, hop]
                by_cases hd2 : d - 1 < 0
                · have hgo : checkJsonDepthGo max false false d (c :: cs) = false := by
                    rcases hcl with h | h <;> simp [checkJsonDepthGo, h, hop, hd2]
                  rw [hgo]
                  simp only [Bool.false_eq_true, false_iff, not_forall]
                  refine ⟨1, ?_⟩
                  have hdep : (((c :: cs).take 1).foldl jsonScanStep ⟨false, false, d⟩).depth = d - 1 := by
                    simp [List.take_succ_cons, hstep]
                  rw [hdep]
                  intro hcon
                  omega
                · have hgo : checkJsonDepthGo max false false d (c :: cs) =
                      checkJsonDepthGo max false false (d - 1) cs := by
                    rcases hcl with h | h <;> simp [checkJsonDepthGo, h, hop, hd2]
                  rw [hstep] at hshift
                  rw [hgo, ih false false (d - 1) (by omega) (by omega)]
                  exact hshift.symm
              · have hstep : jsonScanStep ⟨false, false, d⟩ c = ⟨false, false, d⟩ := by
                  simp [jsonScanStep, hq, hop, hcl]
                have hgo : checkJsonDepthGo max false false d (c :: cs) =
                    checkJsonDepthGo max false false d cs := by
                  simp [checkJsonDepthGo, hq, hop, hcl]
                rw [hstep] at hshift
                rw [hgo, ih false false d h0 h1]
                exact hshift.symm

/-- C6 counterexample: python.ts's `checkNestingDepth` neither fails on a
negative counter (a closing bracket with no matching open succeeds) nor
ignores brackets inside string literals (21 `[` inside a quoted string make
it fail), while node.ts's `checkJsonDepth` does both. -/
theorem checkNestingDepth_counterexample :
    rawPrefixDepth (str "]") 1 < 0 ∧
    checkNestingDepth (str "]") MAX_NESTING_DEPTH = true ∧
    checkNestingDepth (str "\"[[[[[[[[[[[[[[[[[[[[[\"") MAX_NESTING_DEPTH = false ∧
    checkJsonDepth (str "\"[[[[[[[[[[[[[[[[[[[[[\"") MAX_JSON_DEPTH = true ∧
    checkJsonDepth (str "]") MAX_JSON_DEPTH = false := by
  refine ⟨by decide, by decide, by decide, by decide, by decide⟩

/-- C6 (amended): node.ts's `checkJsonDepth` is the guard the claim
describes — it tracks string literals and fails exactly when the
string-aware depth counter leaves `[0, max]` on some prefix, and its failure
makes `parsePackageJson` return `[]` without consulting `JSON.parse`.
python.ts's `checkNestingDepth` instead counts every bracket (string
literals included) and fails exactly when the raw counter exceeds the
maximum on some prefix; it never fails on a negative counter. Its failure
likewise short-circuits the TOML parsers to `[]`. -/
theorem depth_guards_characterized :
    (∀ content, checkNestingDepth content MAX_NESTING_DEPTH = true ↔
      ∀ n, rawPrefixDepth content n ≤ MAX_NESTING_DEPTH) ∧
    (∀ content, checkJsonDepth content MAX_JSON_DEPTH = true ↔
      ∀ n, 0 ≤ (jsonPrefixState content n).depth ∧
           (jsonPrefixState content n).depth ≤ MAX_JSON_DEPTH) ∧
    (∀ jsonParse content, checkJsonDepth content MAX_JSON_DEPTH = false →
      parsePackageJson jsonParse content = []) ∧
    (∀ (tomlParse : Str → Option Pipfile) content,
      checkNestingDepth content MAX_NESTING_DEPTH = false →
      parsePipfile tomlParse content = []) := by
  refine ⟨?_, ?_, ?_, ?_⟩
  · intro content
    exact checkNestingDepthGo_iff MAX_NESTING_DEPTH content 0 (by decide)
  · intro content
    exact checkJsonDepthGo_iff MAX_JSON_DEPTH content false false 0 (by decide) (by decide)
  · intro f content h
    unfold parsePackageJson
    simp [h]
  · intro f content h
    unfold parsePipfile safeTomlParse
    simp [h]

/-- C6 witness for the amended characterization, applied at concrete
inputs: a well-nested object passes the python guard, and a deep-bracket
input fails the JSON guard and short-circuits `parsePackageJson`. -/
theorem depth_guards_characterized_witness :
    rawPrefixDepth (str "a = \x7b b = 1 \x7d") 5 ≤ MAX_NESTING_DEPTH ∧
    parsePackageJson (fun _ => some ⟨some [(str "left", str "1.0.0")], none, none, none⟩)
      (str "]") = [] ∧
    parsePipfile (fun _ => some ⟨some [(str "a", TomlDep.vstr (str "1"))], none⟩)
      (str "[[[[[[[[[[[[[[[[[[[[[") = [] :=
  ⟨((depth_guards_characterized.1 (str "a = \x7b b = 1 \x7d")).mp (by decide)) 5,
   depth_guards_characterized.2.2.1
     (fun _ => some ⟨some [(str "left", str "1.0.0")], none, none, none⟩) (str "]") (by decide),
   depth_guards_characterized.2.2.2
     (fun _ => some ⟨some [(str "a", TomlDep.vstr (str "1"))], none⟩)
     (str "[[[[[[[[[[[[[[[[[[[[[") (by decide)⟩

/-! ## C7 -/

/-- C7 counterexample: the claim says `cleanVersion` is idempotent for every
version string, but the prefix strip happens before the trim, so a string
with whitespace before the range operator is not a fixed point after one
application: `cleanVersion " ^1.0.0" = "^1.0.0"` while
`cleanVersion "^1.0.0" = "1.0.0"`. -/
theorem cleanVersion_not_idempotent :
    cleanVersion (cleanVersion (str " ^1.0.0")) ≠ cleanVersion (str " ^1.0.0") := by decide

/-- C7 (amended): `cleanVersion` is idempotent on every version string whose
cleaned form does not itself begin with one of the range-prefix characters
`^ ~ = < > !`; trimming may expose such a character, and only then does a
second application strip further. -/
theorem cleanVersion_idem (v : Str)
    (h : ∀ c, (cleanVersion v).head? = some c → isVersionPrefixChar c = false) :
    cleanVersion (cleanVersion v) = cleanVersion v := by
  conv_lhs => rw [cleanVersion, dropWhile_eq_self_of_head isVersionPrefixChar (cleanVersion v) h]
  exact jsTrim_cleanVersion v

/-- C7 witness: instantiating the amended idempotence at `"^1.0.0"`. -/
theorem cleanVersion_idem_witness :
    (∀ c, (cleanVersion (str "^1.0.0")).head? = some c → isVersionPrefixChar c = false) ∧
    cleanVersion (cleanVersion (str "^1.0.0")) = cleanVersion (str "^1.0.0") :=
  ⟨by decide, cleanVersion_idem (str "^1.0.0") (by decide)⟩

/-! ## C3 -/

/-- C3: whenever both cleaned versions coerce and the cleaned new version
carries prerelease identifiers (`semver.prerelease` truthy),
`determineChangeType` returns `prerelease`, regardless of the numeric delta:
the direct prerelease check precedes the structural diff. -/
theorem determineChangeType_prerelease_priority (ov nv : Str)
    (h1 : coerce (cleanVersion ov) ≠ none) (h2 : coerce (cleanVersion nv) ≠ none)
    (h3 : hasPrerelease (cleanVersion nv) = true) :
    determineChangeType ov nv = .prerelease := by
  obtain ⟨a, ha⟩ := Option.ne_none_iff_exists'.mp h1
  obtain ⟨b, hb⟩ := Option.ne_none_iff_exists'.mp h2
  unfold determineChangeType
  dsimp only
  rw [ha, hb]
  simp [h3]

/-- C3 witness: `determineChangeType("1.0.0", "2.0.0-alpha.1") = 'prerelease'`
(and not `'major'`). -/
theorem determineChangeType_prerelease_priority_witness :
    coerce (cleanVersion (str "1.0.0")) ≠ none ∧
    coerce (cleanVersion (str "2.0.0-alpha.1")) ≠ none ∧
    hasPrerelease (cleanVersion (str "2.0.0-alpha.1")) = true ∧
    determineChangeType (str "1.0.0") (str "2.0.0-alpha.1") = .prerelease ∧
    ChangeType.prerelease ≠ ChangeType.major :=
  ⟨by decide, by decide, by decide,
   determineChangeType_prerelease_priority (str "1.0.0") (str "2.0.0-alpha.1")
     (by decide) (by decide) (by decide), by decide⟩

/-! ## C9 -/

/-- C9: when either cleaned version fails `semver.coerce`,
`determineChangeType` returns `'other'` — including when the two cleaned
strings are identical (the source's `cleanOld !== cleanNew ? 'other' :
'other'` returns `'other'` on both arms). -/
theorem determineChangeType_other_on_unparseable (ov nv : Str)
    (h : coerce (cleanVersion ov) = none ∨ coerce (cleanVersion nv) = none) :
    determineChangeType ov nv = .other := by
  unfold determineChangeType
  dsimp only
  rcases h with h | h
  · rw [h]
  · cases ho : coerce (cleanVersion ov) with
    | none => rfl
    | some a => rw [h]

/-- C9 witness: `determineChangeType("not-a-version", "also-not") = 'other'`;
the cleaned strings here are distinct, and the same theorem applied to two
identical unparseable strings also yields `'other'`. -/
theorem determineChangeType_other_on_unparseable_witness :
    (coerce (cleanVersion (str "not-a-version")) = none ∨
      coerce (cleanVersion (str "also-not")) = none) ∧
    determineChangeType (str "not-a-version") (str "also-not") = .other ∧
    determineChangeType (str "not-a-version") (str "not-a-version") = .other :=
  ⟨Or.inl (by decide),
   determineChangeType_other_on_unparseable (str "not-a-version") (str "also-not")
     (Or.inl (by decide)),
   determineChangeType_other_on_unparseable (str "not-a-version") (str "not-a-version")
     (Or.inl (by decide))⟩

/-! ## C5 -/

/-- C5: every parser is a total Lean function (hence never throws), and
malformed input yields `[]`: an XML parse failure in `parsePomXml`, a TOML
parse failure (thrown exception) in `parsePipfile`/`parsePyprojectToml`/
`parsePoetryLock`, a JSON parse failure in `parsePackageJson`, over-deep
nesting in the TOML parsers, and an empty `requirements.txt`. -/
theorem parsers_empty_on_malformed :
    (∀ xmlParse content, xmlParse content = none → parsePomXml xmlParse content = []) ∧
    (∀ tomlParse content, tomlParse content = none →
      parsePipfile tomlParse content = []) ∧
    (∀ tomlParse content, tomlParse content = none →
      parsePyprojectToml tomlParse content = []) ∧
    (∀ tomlParse content, tomlParse content = none →
      parsePoetryLock tomlParse content = []) ∧
    (∀ jsonParse content, jsonParse content = none →
      parsePackageJson jsonParse content = []) ∧
    (∀ (tomlParse : Str → Option PyprojectToml) content,
      checkNestingDepth content MAX_NESTING_DEPTH = false →
      parsePyprojectToml tomlParse content = []) ∧
    parseRequirementsTxt (str "") = [] ∧
    parseRequirementsTxt (str "\x7b\"truncated\": ") = [] := by
  refine ⟨?_, ?_, ?_, ?_, ?_, ?_, by decide, by decide⟩
  · intro f content h; unfold parsePomXml; rw [h]
  · intro f content h; unfold parsePipfile safeTomlParse
    by_cases hc : checkNestingDepth content MAX_NESTING_DEPTH <;> simp [hc, h]
  · intro f content h; unfold parsePyprojectToml safeTomlParse
    by_cases hc : checkNestingDepth content MAX_NESTING_DEPTH <;> simp [hc, h]
  · intro f content h; unfold parsePoetryLock safeTomlParse
    by_cases hc : checkNestingDepth content MAX_NESTING_DEPTH <;> simp [hc, h]
  · intro f content h; unfold parsePackageJson
    by_cases hc : checkJsonDepth content MAX_JSON_DEPTH <;> simp [hc, h]
  · intro f content h; unfold parsePyprojectToml safeTomlParse
    simp [h]

/-- C5 witness: the guards at concrete malformed inputs (an oracle returning
`none` models the library parser rejecting the input). -/
theorem parsers_empty_on_malformed_witness :
    parsePomXml (fun _ => none) (str "<project><broken") = [] ∧
    parsePipfile (fun _ => none) (str "[packages\nbad =") = [] ∧
    parsePackageJson (fun _ => none) (str "\x7b\"dependencies\": ") = [] :=
  ⟨parsers_empty_on_malformed.1 (fun _ => none) (str "<project><broken") rfl,
   parsers_empty_on_malformed.2.1 (fun _ => none) (str "[packages\nbad =") rfl,
   parsers_empty_on_malformed.2.2.2.2.1 (fun _ => none) (str "\x7b\"dependencies\": ") rfl⟩

/-! ## C1 and C4: compareVersions -/

lemma compareVersionsRemoval_name (newDeps : List (Str × Str)) (eco : Ecosystem)
    (file : Str) (dt : DependencyType) (p : Str × Str) (c : DependencyChange)
    (h : compareVersionsRemoval newDeps eco file dt p = some c) : c.name = p.1 := by
  unfold compareVersionsRemoval at h
  split at h
  · exact (Option.some.injEq _ _ ▸ h) ▸ rfl
  · split at h
    · cases h; rfl
    · split at h
      · cases h; rfl
      · cases h

lemma compareVersionsAddition_name (oldDeps : List (Str × Str)) (eco : Ecosystem)
    (file : Str) (dt : DependencyType) (p : Str × Str) (c : DependencyChange)
    (h : compareVersionsAddition oldDeps eco file dt p = some c) : c.name = p.1 := by
  unfold compareVersionsAddition at h
  split at h
  · cases h
  · cases h; rfl

lemma filter_filterMap_keys_ne (f : Str × Str → Option DependencyChange)
    (hf : ∀ p c, f p = some c → c.name = p.1) (name : Str) :
    ∀ l : List (Str × Str), name ∉ l.map Prod.fst →
      (l.filterMap f).filter (fun c => decide (c.name = name)) = [] := by
  intro l
  induction l with
  | nil => intro _; rfl
  | cons p rest ih =>
    intro hn
    rw [List.map_cons, List.mem_cons] at hn
    push_neg at hn
    rw [List.filterMap_cons]
    cases hf0 : f p with
    | none => exact ih hn.2
    | some c =>
      rw [List.filter_cons]
      have : c.name ≠ name := by rw [hf _ _ hf0]; exact fun h => hn.1 h.symm
      simp only [this, decide_False]
      exact ih hn.2

/-- Filtering the changes produced from one association list down to a
single name yields exactly the output of the loop body at that name's
(unique) entry. -/
lemma filter_filterMap_assoc (f : Str × Str → Option DependencyChange)
    (hf : ∀ p c, f p = some c → c.name = p.1) (name : Str) :
    ∀ l : List (Str × Str), (l.map Prod.fst).Nodup →
      (l.filterMap f).filter (fun c => decide (c.name = name)) =
        (match jsMapGet l name with
         | some v => (f (name, v)).toList
         | none => []) := by
  intro l
  induction l with
  | nil => intro _; rfl
  | cons p rest ih =>
    intro hl
    obtain ⟨k, v⟩ := p
    rw [List.map_cons, List.nodup_cons] at hl
    rw [List.filterMap_cons]
    by_cases hk : k = name
    · subst hk
      have hrest : (rest.filterMap f).filter (fun c => decide (c.name = k)) = [] :=
        filter_filterMap_keys_ne f hf k rest hl.1
      cases hf0 : f (k, v) with
      | none =>
        rw [hrest]
        simp [jsMapGet, hf0]
      | some c =>
        rw [List.filter_cons]
        have hc : c.name = k := hf _ _ hf0
        simp [jsMapGet, hf0, hc, hrest]
    · cases hf0 : f (k, v) with
      | none =>
        rw [ih hl.2]
        simp [jsMapGet, hk]
      | some c =>
        rw [List.filter_cons]
        have hc : c.name = k := hf _ _ hf0
        have : ¬ c.name = name := by rw [hc]; exact hk
        simp only [this, decide_False]
        rw [ih hl.2]
        simp [jsMapGet, hk]

/-- C1 counterexample: in `compareVersions`, a name present in *both* maps
whose new value is the empty string is emitted as a `removed` change with
`newVersion = null`, although its cleaned values differ and the claim
requires a change with the classifier's type (`other` here) for names
present in both maps. -/
theorem compareVersions_counterexample :
    compareVersions [(str "a", str "1.0.0")] [(str "a", str "")] .node
        (str "package.json") .production =
      [⟨str "a", .node, str "package.json", some (str "1.0.0"), none, .removed, .production⟩] ∧
    jsMapGet [(str "a", str "")] (str "a") = some (str "") ∧
    cleanVersion (str "1.0.0") ≠ cleanVersion (str "") ∧
    determineChangeType (str "1.0.0") (str "") = .other ∧
    ChangeType.other ≠ ChangeType.removed :=
  ⟨by decide, by decide, by decide, by decide, by decide⟩

/-- C1 (amended): per-name characterization of `compareVersions` on maps
with pairwise-distinct keys. A name in `oldDeps` missing from `newDeps` —
or mapped there to the empty string, which the JS falsiness check treats as
missing — yields exactly one `removed` change with `newVersion = null`; a
name in both maps with a non-empty new value yields exactly one change with
the classifier's type iff the cleaned values differ, and nothing otherwise;
a name only in `newDeps` yields exactly one `added` change with
`oldVersion = null`; nothing else is emitted. -/
theorem compareVersions_characterization
    (oldDeps newDeps : List (Str × Str)) (eco : Ecosystem) (file : Str) (dt : DependencyType)
    (hold : (oldDeps.map Prod.fst).Nodup) (hnew : (newDeps.map Prod.fst).Nodup) (name : Str) :
    (compareVersions oldDeps newDeps eco file dt).filter (fun c => decide (c.name = name)) =
      (match jsMapGet oldDeps name, jsMapGet newDeps name with
       | some ov, none => [⟨name, eco, file, some ov, none, .removed, dt⟩]
       | some ov, some nv =>
         if nv = [] then [⟨name, eco, file, some ov, none, .removed, dt⟩]
         else if cleanVersion ov ≠ cleanVersion nv then
           [⟨name, eco, file, some ov, some nv, determineChangeType ov nv, dt⟩]
         else []
       | none, some nv => [⟨name, eco, file, none, some nv, .added, dt⟩]
       | none, none => []) := by
  unfold compareVersions
  rw [List.filter_append,
    filter_filterMap_assoc _ (compareVersionsRemoval_name newDeps eco file dt) name oldDeps hold,
    filter_filterMap_assoc _ (compareVersionsAddition_name oldDeps eco file dt) name newDeps hnew]
  have hhas : jsMapHas oldDeps name = (jsMapGet oldDeps name).isSome := rfl
  cases hgo : jsMapGet oldDeps name with
  | some ov =>
    cases hgn : jsMapGet newDeps name with
    | none =>
      simp [compareVersionsRemoval, compareVersionsAddition, hgn, jsMapHas, hgo]
    | some nv =>
      by_cases hnv : nv = []
      · simp [compareVersionsRemoval, compareVersionsAddition, hgn, hnv, jsMapHas, hgo]
      · by_cases hcl : cleanVersion ov = cleanVersion nv
        · simp [compareVersionsRemoval, compareVersionsAddition, hgn, hnv, hcl, jsMapHas, hgo]
        · simp [compareVersionsRemoval, compareVersionsAddition, hgn, hnv, hcl, jsMapHas, hgo]
  | none =>
    cases hgn : jsMapGet newDeps name with
    | none => simp [compareVersionsAddition, hgn, jsMapHas, hgo]
    | some nv => simp [compareVersionsAddition, hgn, jsMapHas, hgo]

/-- C1 witness: the characterization applied to concrete maps at the name
`"b"`, present in both maps with distinct cleaned versions. -/
theorem compareVersions_characterization_witness :
    (([(str "a", str "1.0.0"), (str "b", str "2.0.0")].map Prod.fst).Nodup) ∧
    (([(str "b", str "2.1.0"), (str "c", str "1.0.0")].map Prod.fst).Nodup) ∧
    (compareVersions [(str "a", str "1.0.0"), (str "b", str "2.0.0")]
        [(str "b", str "2.1.0"), (str "c", str "1.0.0")] .node (str "package.json")
        .production).filter (fun c => decide (c.name = str "b")) =
      [⟨str "b", .node, str "package.json", some (str "2.0.0"), some (str "2.1.0"),
        .minor, .production⟩] :=
  ⟨by decide, by decide, by
    have h := compareVersions_characterization
      [(str "a", str "1.0.0"), (str "b", str "2.0.0")]
      [(str "b", str "2.1.0"), (str "c", str "1.0.0")]
      .node (str "package.json") .production (by decide) (by decide) (str "b")
    exact h.trans (by decide)⟩

lemma determineChangeType_ne_added_removed (ov nv : Str) :
    determineChangeType ov nv ≠ .added ∧ determineChangeType ov nv ≠ .removed := by
  unfold determineChangeType
  dsimp only
  constructor <;>
  · split
    · simp
    · simp
    · split
      · simp
      · split
        · simp
        · split
          · simp
          · split
            · simp
            · split
              · simp
              · split
                · simp
                · simp

/-- C4: every change produced by `compareVersions` has `oldVersion = null`
(and a non-null `newVersion`) iff it is an `added` change, a
`newVersion = null` (and non-null `oldVersion`) iff it is a `removed`
change, and both fields non-null for every other change type. -/
theorem compareVersions_null_pattern (oldDeps newDeps : List (Str × Str)) (eco : Ecosystem)
    (file : Str) (dt : DependencyType) :
    ∀ c ∈ compareVersions oldDeps newDeps eco file dt,
      (c.changeType = .added ↔ c.oldVersion = none) ∧
      (c.changeType = .removed ↔ c.newVersion = none) ∧
      (c.changeType ≠ .added → c.oldVersion ≠ none) ∧
      (c.changeType ≠ .removed → c.newVersion ≠ none) := by
  intro c hc
  unfold compareVersions at hc
  rw [List.mem_append] at hc
  rcases hc with hc | hc
  · rw [List.mem_filterMap] at hc
    obtain ⟨p, _, heq⟩ := hc
    unfold compareVersionsRemoval at heq
    split at heq
    · cases heq; simp
    · split at heq
      · cases heq; simp
      · split at heq
        · cases heq
          have hne := determineChangeType_ne_added_removed p.2 ‹Str›
          simp [hne.1, hne.2]
        · cases heq
  · rw [List.mem_filterMap] at hc
    obtain ⟨p, _, heq⟩ := hc
    unfold compareVersionsAddition at heq
    split at heq
    · cases heq
    · cases heq; simp

/-- C4 witness: the pattern instantiated at the `removed` change produced
from concrete maps. -/
theorem compareVersions_null_pattern_witness :
    (⟨str "a", .node, str "f", some (str "1.0.0"), none, .removed, .production⟩ :
        DependencyChange) ∈ compareVersions [(str "a", str "1.0.0")] [] .node (str "f")
        .production ∧
    ((DependencyChange.changeType ⟨str "a", .node, str "f", some (str "1.0.0"), none,
        .removed, .production⟩ = .removed) ↔
      (DependencyChange.newVersion ⟨str "a", .node, str "f", some (str "1.0.0"), none,
        .removed, .production⟩ = none)) :=
  ⟨by decide,
   (compareVersions_null_pattern [(str "a", str "1.0.0")] [] .node (str "f") .production
     ⟨str "a", .node, str "f", some (str "1.0.0"), none, .removed, .production⟩
     (by decide)).2.1⟩

/-! ## C2: deduplicateChanges -/

lemma colon_append_inj :
    ∀ (xs : Str), ':' ∉ xs → ∀ (ys : Str), ':' ∉ ys → ∀ n1 n2 : Str,
      xs ++ ':' :: n1 = ys ++ ':' :: n2 → xs = ys ∧ n1 = n2 := by
  intro xs
  induction xs with
  | nil =>
    intro _ ys hys n1 n2 h
    cases ys with
    | nil => simpa using h
    | cons y tys =>
      simp only [List.nil_append, List.cons_append, List.cons.injEq] at h
      exact absurd (List.mem_cons_self y tys) (h.1 ▸ hys)
  | cons x txs ih =>
    intro hx ys hys n1 n2 h
    cases ys with
    | nil =>
      simp only [List.nil_append, List.cons_append, List.cons.injEq] at h
      exact absurd (List.mem_cons_self x txs) (h.1.symm ▸ hx)
    | cons y tys =>
      simp only [List.cons_append, List.cons.injEq] at h
      have hx' : ':' ∉ txs := fun hm => hx (List.mem_cons_of_mem x hm)
      have hy' : ':' ∉ tys := fun hm => hys (List.mem_cons_of_mem y hm)
      obtain ⟨he, hn⟩ := ih hx' tys hy' n1 n2 h.2
      exact ⟨by rw [h.1, he], hn⟩

lemma ecosystemStr_no_colon (e : Ecosystem) : ':' ∉ ecosystemStr e := by
  cases e <;> decide

lemma ecosystemStr_inj {a b : Ecosystem} (h : ecosystemStr a = ecosystemStr b) : a = b := by
  cases a <;> cases b <;> first | rfl | (exact absurd h (by decide))

lemma dedupKey_inj {a b : DependencyChange} (h : dedupKey a = dedupKey b) :
    a.ecosystem = b.ecosystem ∧ a.name = b.name := by
  unfold dedupKey at h
  rw [List.append_assoc, List.append_assoc] at h
  obtain ⟨he, hn⟩ := colon_append_inj _ (ecosystemStr_no_colon a.ecosystem) _
    (ecosystemStr_no_colon b.ecosystem) _ _ h
  exact ⟨ecosystemStr_inj he, hn⟩

lemma dedupKey_congr {a b : DependencyChange} (he : a.ecosystem = b.ecosystem)
    (hn : a.name = b.name) : dedupKey a = dedupKey b := by
  unfold dedupKey
  rw [he, hn]

lemma jsMapGet_eq_none_iff {β : Type} (m : List (Str × β)) (k : Str) :
    jsMapGet m k = none ↔ k ∉ m.map Prod.fst := by
  induction m with
  | nil =>
    constructor
    · intro _ h; simp at h
    · intro _; rfl
  | cons p rest ih =>
    obtain ⟨k', v'⟩ := p
    rw [List.map_cons, List.mem_cons]
    constructor
    · intro h hmem
      by_cases hp : k' = k
      · rw [jsMapGet, if_pos hp] at h; cases h
      · rw [jsMapGet, if_neg hp] at h
        rcases hmem with hmem | hmem
        · exact hp hmem.symm
        · exact (ih.mp h) hmem
    · intro h
      push_neg at h
      rw [jsMapGet, if_neg (fun hp => h.1 hp.symm)]
      exact ih.mpr h.2

lemma jsMapSet_map_fst_of_has {β : Type} (m : List (Str × β)) (k : Str) (v : β)
    (h : jsMapHas m k = true) :
    (jsMapSet m k v).map Prod.fst = m.map Prod.fst := by
  unfold jsMapSet
  rw [if_pos h, List.map_map]
  apply List.map_congr_left
  intro p _
  by_cases hp : p.1 = k <;> simp [hp, Function.comp]

lemma jsMapSet_of_not_has {β : Type} (m : List (Str × β)) (k : Str) (v : β)
    (h : jsMapHas m k = false) : jsMapSet m k v = m ++ [(k, v)] := by
  unfold jsMapSet
  simp [h]

lemma mem_jsMapSet_has {β : Type} (m : List (Str × β)) (k : Str) (v : β)
    (h : jsMapHas m k = true) :
    ∀ q ∈ jsMapSet m k v, q = (k, v) ∨ q ∈ m := by
  unfold jsMapSet
  rw [if_pos h]
  intro q hq
  rw [List.mem_map] at hq
  obtain ⟨p, hp, he⟩ := hq
  by_cases hpk : p.1 = k
  · left; rw [← he]; simp [hpk]
  · right; rw [← he]; simp [hpk]; exact hp

/-- The invariant of the `seen` map: keys are pairwise distinct and each
stored change's key is the key it is stored under. -/
def DedupInv (seen : List (Str × DependencyChange)) : Prop :=
  (seen.map Prod.fst).Nodup ∧ ∀ q ∈ seen, dedupKey q.2 = q.1

lemma dedupStep_inv (seen : List (Str × DependencyChange)) (c : DependencyChange)
    (h : DedupInv seen) : DedupInv (dedupStep seen c) := by
  obtain ⟨hnd, hkeys⟩ := h
  unfold dedupStep
  dsimp only
  cases hg : jsMapGet seen (dedupKey c) with
  | none =>
    have hhas : jsMapHas seen (dedupKey c) = false := by
      unfold jsMapHas
      rw [hg]; rfl
    rw [jsMapSet_of_not_has seen (dedupKey c) c hhas]
    constructor
    · rw [List.map_append]
      simp only [List.map_cons, List.map_nil]
      rw [List.nodup_append]
      refine ⟨hnd, List.nodup_singleton _, ?_⟩
      intro k hk hk'
      simp only [List.mem_singleton] at hk'
      subst hk'
      exact absurd hk ((jsMapGet_eq_none_iff seen (dedupKey c)).mp hg)
    · intro q hq
      rw [List.mem_append] at hq
      rcases hq with hq | hq
      · exact hkeys q hq
      · simp only [List.mem_singleton] at hq
        subst hq
        rfl
  | some existing =>
    have hhas : jsMapHas seen (dedupKey c) = true := by
      unfold jsMapHas
      rw [hg]; rfl
    dsimp only
    by_cases hcond : isLockFile existing.file = true ∧ ¬ isLockFile c.file = true
    · rw [if_pos hcond]
      constructor
      · rw [jsMapSet_map_fst_of_has seen (dedupKey c) c hhas]
        exact hnd
      · intro q hq
        rcases mem_jsMapSet_has seen (dedupKey c) c hhas q hq with hq' | hq'
        · subst hq'; rfl
        · exact hkeys q hq'
    · rw [if_neg hcond]
      exact ⟨hnd, hkeys⟩

lemma dedupFold_inv (changes : List DependencyChange) :
    ∀ seen, DedupInv seen → DedupInv (changes.foldl dedupStep seen) := by
  induction changes with
  | nil => intro seen h; exact h
  | cons c rest ih =>
    intro seen h
    exact ih (dedupStep seen c) (dedupStep_inv seen c h)

/-- C2: (1) reconciliation keeps at most one change per (ecosystem, name)
pair; (2) for two colliding changes the survivor is the second exactly when
the first comes from a lock file (path containing "lock") and the second
does not, and the first otherwise; (3) in particular a manifest-derived
change survives over a colliding lock-derived one. -/
theorem deduplicateChanges_spec :
    (∀ changes : List DependencyChange,
      (deduplicateChanges changes).Pairwise
        (fun a b => ¬ (a.ecosystem = b.ecosystem ∧ a.name = b.name))) ∧
    (∀ a b : DependencyChange, a.ecosystem = b.ecosystem → a.name = b.name →
      deduplicateChanges [a, b] =
        [if isLockFile a.file ∧ ¬ isLockFile b.file then b else a]) ∧
    (∀ a b : DependencyChange, a.ecosystem = b.ecosystem → a.name = b.name →
      ¬ isLockFile a.file → isLockFile b.file → deduplicateChanges [a, b] = [a]) := by
  have hpair : ∀ a b : DependencyChange, a.ecosystem = b.ecosystem → a.name = b.name →
      deduplicateChanges [a, b] =
        [if isLockFile a.file ∧ ¬ isLockFile b.file then b else a] := by
    intro a b he hn
    have hk : dedupKey b = dedupKey a := dedupKey_congr he.symm hn.symm
    unfold deduplicateChanges
    rw [List.foldl_cons, List.foldl_cons, List.foldl_nil]
    have h1 : dedupStep [] a = [(dedupKey a, a)] := by
      unfold dedupStep jsMapSet jsMapHas
      rfl
    rw [h1]
    unfold dedupStep
    dsimp only
    rw [hk]
    have hget : jsMapGet [(dedupKey a, a)] (dedupKey a) = some a := by
      unfold jsMapGet
      rw [if_pos rfl]
    rw [hget]
    dsimp only
    by_cases hc : isLockFile a.file = true ∧ ¬ isLockFile b.file = true
    · rw [if_pos hc, if_pos hc]
      unfold jsMapSet jsMapHas jsMapGet
      rw [if_pos rfl]
      simp
    · rw [if_neg hc, if_neg hc]
      rfl
  refine ⟨?_, hpair, ?_⟩
  · intro changes
    have hinv : DedupInv (changes.foldl dedupStep []) :=
      dedupFold_inv changes [] ⟨List.nodup_nil, by intro q hq; cases hq⟩
    unfold deduplicateChanges
    rw [List.pairwise_map]
    have hp : (changes.foldl dedupStep []).Pairwise (fun p q => p.1 ≠ q.1) := by
      have hnd := hinv.1
      unfold List.Nodup at hnd
      rw [List.pairwise_map] at hnd
      exact hnd
    exact hp.imp_of_mem (by
      intro p q hp' hq' hne hcon
      exact hne (by
        rw [← hinv.2 p hp', ← hinv.2 q hq']
        exact dedupKey_congr hcon.1 hcon.2))
  · intro a b he hn hal hbl
    rw [hpair a b he hn, if_neg (by intro hcon; exact hal hcon.1)]

/-- C2 witness: a manifest-derived change and a colliding lock-derived
change; exactly the manifest one survives. -/
theorem deduplicateChanges_spec_witness :
    deduplicateChanges
      [⟨str "lodash", .node, str "package.json", some (str "1.0.0"), some (str "2.0.0"),
         .major, .production⟩,
       ⟨str "lodash", .node, str "package-lock.json", some (str "1.0.0"), some (str "2.0.0"),
         .major, .production⟩] =
      [⟨str "lodash", .node, str "package.json", some (str "1.0.0"), some (str "2.0.0"),
         .major, .production⟩] :=
  deduplicateChanges_spec.2.2
    ⟨str "lodash", .node, str "package.json", some (str "1.0.0"), some (str "2.0.0"),
      .major, .production⟩
    ⟨str "lodash", .node, str "package-lock.json", some (str "1.0.0"), some (str "2.0.0"),
      .major, .production⟩
    rfl rfl (by decide) (by decide)

/-! ## C8: entry-count caps -/

/-- Total number of dependency entries across all returned groups. -/
def totalEntries (groups : List ParsedDependencies) : Nat :=
  (groups.map (fun g => jsMapSize g.dependencies)).sum

/-- Distinct package names of the shape `"a"`, `"aa"`, `"aaa"`, ... -/
def mkDepName (i : Nat) : Str := List.replicate (i + 1) 'a'

/-- A dependency record with `n` distinct package names. -/
def bigDepList (n : Nat) : List (Str × Str) :=
  (List.range n).map (fun i => (mkDepName i, str "1.0.0"))

lemma mkDepName_inj : Function.Injective mkDepName := by
  intro i j h
  have := congrArg List.length h
  simp [mkDepName] at this
  exact this

lemma bigDepList_keys_nodup (n : Nat) : ((bigDepList n).map Prod.fst).Nodup := by
  unfold bigDepList
  rw [List.map_map]
  have : (Prod.fst ∘ fun i => (mkDepName i, str "1.0.0")) = mkDepName := rfl
  rw [this]
  exact (List.nodup_range n).map mkDepName_inj

lemma jsMapFromList_go_length {β : Type} :
    ∀ (l acc : List (Str × β)), (acc.map Prod.fst ++ l.map Prod.fst).Nodup →
      (l.foldl (fun m p => jsMapSet m p.1 p.2) acc).length = acc.length + l.length := by
  intro l
  induction l with
  | nil => intro acc _; simp
  | cons p rest ih =>
    intro acc hnd
    obtain ⟨k, v⟩ := p
    rw [List.foldl_cons]
    have hknotin : k ∉ acc.map Prod.fst := by
      rw [List.map_cons] at hnd
      rw [List.nodup_append] at hnd
      intro hmem
      exact hnd.2.2 hmem (List.mem_cons_self k _)
    have hhas : jsMapHas acc k = false := by
      unfold jsMapHas
      rw [(jsMapGet_eq_none_iff acc k).mpr hknotin]
      rfl
    rw [jsMapSet_of_not_has acc k v hhas]
    have hnd' : ((acc ++ [(k, v)]).map Prod.fst ++ rest.map Prod.fst).Nodup := by
      rw [List.map_append]
      rw [List.append_assoc]
      simpa using hnd
    rw [ih (acc ++ [(k, v)]) hnd']
    simp
    omega

lemma jsMapFromList_length {β : Type} (l : List (Str × β)) (h : (l.map Prod.fst).Nodup) :
    (jsMapFromList l).length = l.length := by
  unfold jsMapFromList
  have := jsMapFromList_go_length l [] (by simpa using h)
  simpa using this

/-- C8 counterexample: `parsePackageJson` enforces no entry cap at all — a
package.json whose `dependencies` object holds 5,001 distinct names yields
5,001 entries, exceeding the claimed 5,000 ceiling. (The JSON text is
represented by its parse result, a 5,001-entry record, supplied through the
`JSON.parse` oracle.) -/
theorem parsePackageJson_no_entry_cap :
    totalEntries (parsePackageJson (fun _ => some ⟨some (bigDepList 5001), none, none, none⟩)
        (str "")) = 5001 ∧ 5001 > 5000 := by
  constructor
  · unfold parsePackageJson
    have hdepth : checkJsonDepth (str "") MAX_JSON_DEPTH = true := rfl
    rw [if_neg (by rw [hdepth]; simp)]
    dsimp only
    have hlen : (bigDepList 5001).length = 5001 := by
      unfold bigDepList
      simp
    rw [if_pos (by rw [hlen]; omega)]
    unfold totalEntries jsMapSize
    simp only [List.map_cons, List.map_nil, List.map_append, List.sum_cons, List.sum_nil]
    rw [jsMapFromList_length _ (bigDepList_keys_nodup 5001), hlen]
    simp
  · omega

lemma jsMapSet_length_le {β : Type} (m : List (Str × β)) (k : Str) (v : β) :
    (jsMapSet m k v).length ≤ m.length + 1 := by
  unfold jsMapSet
  split
  · rw [List.length_map]; omega
  · rw [List.length_append]; simp

/-- Bounds of the capped PEP 621 loop: insertions never push the counter
past `MAX_DEPENDENCIES`, and the map grows by at most the counter. -/
lemma collectPep621_bound :
    ∀ (l : List Str) (deps : List (Str × Str)) (t : Nat),
      (collectPep621 l deps t).1.length + t ≤ deps.length + (collectPep621 l deps t).2 ∧
      (t ≤ MAX_DEPENDENCIES → (collectPep621 l deps t).2 ≤ MAX_DEPENDENCIES) := by
  intro l
  induction l with
  | nil => intro deps t; exact ⟨by simp [collectPep621], fun h => by simp [collectPep621]; exact h⟩
  | cons dep rest ih =>
    intro deps t
    unfold collectPep621
    by_cases hcap : t ≥ MAX_DEPENDENCIES
    · rw [if_pos hcap]
      exact ⟨by dsimp only; omega, fun h => by dsimp only; omega⟩
    · rw [if_neg hcap]
      cases hm : pep621Match dep with
      | none => dsimp only; exact ih deps t
      | some nv =>
        obtain ⟨nm, ver⟩ := nv
        dsimp only
        have hb := ih (jsMapSet deps (jsToLower nm) ver) (t + 1)
        have hset := jsMapSet_length_le deps (jsToLower nm) ver
        exact ⟨by omega, fun _ => hb.2 (by unfold MAX_DEPENDENCIES at hcap ⊢; omega)⟩

lemma collectPep621Groups_bound :
    ∀ (groups : List (Str × List Str)) (deps : List (Str × Str)) (t : Nat),
      (collectPep621Groups groups deps t).1.length + t ≤
        deps.length + (collectPep621Groups groups deps t).2 ∧
      (t ≤ MAX_DEPENDENCIES → (collectPep621Groups groups deps t).2 ≤ MAX_DEPENDENCIES) := by
  intro groups
  induction groups with
  | nil => intro deps t; exact ⟨by simp [collectPep621Groups], fun h => by simp [collectPep621Groups]; exact h⟩
  | cons g rest ih =>
    intro deps t
    unfold collectPep621Groups
    obtain ⟨gname, gdeps⟩ := g
    dsimp only
    have h1 := collectPep621_bound gdeps deps t
    have h2 := ih (collectPep621 gdeps deps t).1 (collectPep621 gdeps deps t).2
    exact ⟨by omega, fun h => h2.2 (h1.2 h)⟩

lemma totalEntries_append (a b : List ParsedDependencies) :
    totalEntries (a ++ b) = totalEntries a + totalEntries b := by
  unfold totalEntries
  rw [List.map_append, List.sum_append]

lemma totalEntries_group_if (m : List (Str × Str)) (dt : DependencyType) :
    totalEntries (if jsMapSize m > 0 then [{ dependencies := m, dependencyType := dt }] else []) =
      m.length := by
  by_cases h : jsMapSize m > 0
  · rw [if_pos h]
    simp [totalEntries, jsMapSize]
  · rw [if_neg h]
    unfold jsMapSize at h
    simp [totalEntries]
    omega

/-- C8 (amended): only the PEP 621 sections of `parsePyprojectToml` enforce
the 5,000-entry ceiling — for any parsed pyproject without a
`[tool.poetry]` table the total entry count is at most `MAX_DEPENDENCIES`;
the Poetry sections and the other manifest parsers (e.g. `parsePackageJson`)
extract entries without any count cap. -/
theorem pyproject_pep621_capped (tomlParse : Str → Option PyprojectToml) (content : Str)
    (p : PyprojectToml) (hp : safeTomlParse tomlParse content = some p)
    (hpoetry : p.toolPoetry = none) :
    totalEntries (parsePyprojectToml tomlParse content) ≤ MAX_DEPENDENCIES := by
  unfold parsePyprojectToml
  rw [hp]
  dsimp only
  unfold parsePyprojectFromToml
  rw [hpoetry]
  unfold pyprojectPep621Section
  dsimp only
  cases hd : p.project.bind (fun x => x.dependencies) with
  | none =>
    cases ho : p.project.bind (fun x => x.optionalDependencies) with
    | none => simp [totalEntries, MAX_DEPENDENCIES]
    | some groups =>
      dsimp only
      have hb := collectPep621Groups_bound groups [] 0
      simp only [List.length_nil] at hb
      have ht := hb.2 (by unfold MAX_DEPENDENCIES; omega)
      rw [List.nil_append, totalEntries_group_if]
      omega
  | some depList =>
    dsimp only
    have h1 := collectPep621_bound depList [] 0
    simp only [List.length_nil] at h1
    have ht1 := h1.2 (by unfold MAX_DEPENDENCIES; omega)
    cases ho : p.project.bind (fun x => x.optionalDependencies) with
    | none =>
      dsimp only
      rw [totalEntries_group_if]
      omega
    | some groups =>
      dsimp only
      have h2 := collectPep621Groups_bound groups [] (collectPep621 depList [] 0).2
      simp only [List.length_nil] at h2
      have ht2 := h2.2 ht1
      rw [totalEntries_append, totalEntries_group_if, totalEntries_group_if]
      omega

/-- C8 witness: the amended cap theorem applied to a concrete PEP 621-only
pyproject. -/
theorem pyproject_pep621_capped_witness :
    totalEntries (parsePyprojectToml
      (fun _ => some ⟨some ⟨some [str "requests>=2.31.0"], none⟩, none⟩) (str "")) ≤
      MAX_DEPENDENCIES :=
  pyproject_pep621_capped
    (fun _ => some ⟨some ⟨some [str "requests>=2.31.0"], none⟩, none⟩) (str "")
    ⟨some ⟨some [str "requests>=2.31.0"], none⟩, none⟩ rfl rfl

/-! ## C10: lowercased names in the Python parsers -/

lemma jsToLowerChar_idem (c : Char) : jsToLowerChar (jsToLowerChar c) = jsToLowerChar c := by
  unfold jsToLowerChar
  by_cases h : 65 ≤ c.toNat ∧ c.toNat ≤ 90
  · rw [if_pos h]
    have hv : (c.toNat + 32).isValidChar := Or.inl (by omega)
    have htn : (Char.ofNat (c.toNat + 32)).toNat = c.toNat + 32 := by
      rw [Char.ofNat, dif_pos hv]
      rfl
    rw [if_neg (by rw [htn]; omega)]
  · rw [if_neg h, if_neg h]

lemma jsToLower_idem (s : Str) : jsToLower (jsToLower s) = jsToLower s := by
  unfold jsToLower
  rw [List.map_map]
  apply List.map_congr_left
  intro c _
  exact jsToLowerChar_idem c

/-- All keys of a dependency map are fixed points of lowercasing. -/
def LowKeys (m : List (Str × Str)) : Prop := ∀ q ∈ m, jsToLower q.1 = q.1

lemma mem_jsMapSet {β : Type} (m : List (Str × β)) (k : Str) (v : β) :
    ∀ q ∈ jsMapSet m k v, q = (k, v) ∨ q ∈ m := by
  intro q hq
  unfold jsMapSet at hq
  by_cases hhas : jsMapHas m k = true
  · exact mem_jsMapSet_has m k v hhas q (by unfold jsMapSet; rw [if_pos hhas]; exact (by rwa [if_pos hhas] at hq))
  · rw [if_neg hhas] at hq
    rw [List.mem_append] at hq
    rcases hq with hq | hq
    · exact Or.inr hq
    · simp only [List.mem_singleton] at hq
      exact Or.inl hq

lemma LowKeys_nil : LowKeys [] := by intro q hq; cases hq

lemma LowKeys_set (m : List (Str × Str)) (k : Str) (v : Str) (hm : LowKeys m)
    (hk : jsToLower k = k) : LowKeys (jsMapSet m k v) := by
  intro q hq
  rcases mem_jsMapSet m k v q hq with h | h
  · subst h; exact hk
  · exact hm q h

lemma reqProcessLine_low (deps : List (Str × Str)) (line : Str) (h : LowKeys deps) :
    LowKeys (reqProcessLine deps line) := by
  unfold reqProcessLine
  dsimp only
  repeat' split
  all_goals first
    | exact h
    | exact LowKeys_set _ _ _ h (jsToLower_idem _)

lemma foldl_reqProcessLine_low (lines : List Str) :
    ∀ deps, LowKeys deps → LowKeys (lines.foldl reqProcessLine deps) := by
  induction lines with
  | nil => intro deps h; exact h
  | cons l rest ih => intro deps h; exact ih _ (reqProcessLine_low deps l h)

lemma collectPep621_low : ∀ (l : List Str) (deps : List (Str × Str)) (t : Nat),
    LowKeys deps → LowKeys (collectPep621 l deps t).1 := by
  intro l
  induction l with
  | nil => intro deps t h; exact h
  | cons dep rest ih =>
    intro deps t h
    unfold collectPep621
    split
    · exact h
    · cases hm : pep621Match dep with
      | none => exact ih deps t h
      | some nv =>
        obtain ⟨nm, ver⟩ := nv
        exact ih _ _ (LowKeys_set _ _ _ h (jsToLower_idem _))

lemma collectPep621Groups_low :
    ∀ (groups : List (Str × List Str)) (deps : List (Str × Str)) (t : Nat),
      LowKeys deps → LowKeys (collectPep621Groups groups deps t).1 := by
  intro groups
  induction groups with
  | nil => intro deps t h; exact h
  | cons g rest ih =>
    intro deps t h
    unfold collectPep621Groups
    obtain ⟨gname, gdeps⟩ := g
    exact ih _ _ (collectPep621_low gdeps deps t h)

lemma collectTomlDepsGo_low (b : Bool) :
    ∀ (entries : List (Str × TomlDep)) (deps : List (Str × Str)),
      LowKeys deps → LowKeys (collectTomlDepsGo b entries deps) := by
  intro entries
  induction entries with
  | nil => intro deps h; exact h
  | cons p rest ih =>
    intro deps h
    unfold collectTomlDepsGo
    split
    · exact ih deps h
    · exact ih _ (LowKeys_set _ _ _ h (jsToLower_idem _))

lemma collectTomlDeps_low (b : Bool) (entries : List (Str × TomlDep)) :
    LowKeys (collectTomlDeps b entries) :=
  collectTomlDepsGo_low b entries [] LowKeys_nil

/-- All groups in a parser result have lowercase-fixed keys. -/
def LowGroups (rs : List ParsedDependencies) : Prop :=
  ∀ g ∈ rs, LowKeys g.dependencies

lemma LowGroups_nil : LowGroups [] := by intro g hg; cases hg

lemma LowGroups_append (a b : List ParsedDependencies) (ha : LowGroups a) (hb : LowGroups b) :
    LowGroups (a ++ b) := by
  intro g hg
  rw [List.mem_append] at hg
  rcases hg with hg | hg
  · exact ha g hg
  · exact hb g hg

lemma LowGroups_group_if (m : List (Str × Str)) (dt : DependencyType) (hm : LowKeys m) :
    LowGroups (if jsMapSize m > 0 then [{ dependencies := m, dependencyType := dt }] else []) := by
  split
  · intro g hg
    simp only [List.mem_singleton] at hg
    subst hg
    exact hm
  · exact LowGroups_nil

lemma poetryGroupStep_low (r : List ParsedDependencies) (gp : Str × PoetryGroup)
    (hr : LowGroups r) : LowGroups (poetryGroupStep r gp) := by
  unfold poetryGroupStep
  split
  · dsimp only
    split
    · exact LowGroups_append _ _ hr (by
        intro g hg
        simp only [List.mem_singleton] at hg
        subst hg
        exact collectTomlDeps_low false _)
    · exact hr
  · exact hr

lemma foldl_poetryGroupStep_low (groups : List (Str × PoetryGroup)) :
    ∀ r, LowGroups r → LowGroups (groups.foldl poetryGroupStep r) := by
  induction groups with
  | nil => intro r h; exact h
  | cons g rest ih => intro r h; exact ih _ (poetryGroupStep_low r g h)


lemma LowGroups_extend (r : List ParsedDependencies) (m : List (Str × Str)) (dt : DependencyType)
    (hr : LowGroups r) (hm : LowKeys m) :
    LowGroups (if jsMapSize m > 0 then r ++ [{ dependencies := m, dependencyType := dt }] else r) := by
  split
  · refine LowGroups_append _ _ hr ?_
    intro g hg
    simp only [List.mem_singleton] at hg
    subst hg
    exact hm
  · exact hr

lemma pyprojectPep621Section_low (p : PyprojectToml) : LowGroups (pyprojectPep621Section p) := by
  unfold pyprojectPep621Section
  dsimp only
  cases hd : p.project.bind (fun x => x.dependencies) with
  | none =>
    cases ho : p.project.bind (fun x => x.optionalDependencies) with
    | none => exact LowGroups_nil
    | some groups =>
      dsimp only
      exact LowGroups_append _ _ LowGroups_nil
        (LowGroups_group_if _ _ (collectPep621Groups_low groups [] _ LowKeys_nil))
  | some depList =>
    dsimp only
    cases ho : p.project.bind (fun x => x.optionalDependencies) with
    | none => exact LowGroups_group_if _ _ (collectPep621_low depList [] 0 LowKeys_nil)
    | some groups =>
      dsimp only
      exact LowGroups_append _ _
        (LowGroups_group_if _ _ (collectPep621_low depList [] 0 LowKeys_nil))
        (LowGroups_group_if _ _ (collectPep621Groups_low groups [] _ LowKeys_nil))

lemma pyprojectPoetrySection_low (poetry : PyprojectPoetry) (r0 : List ParsedDependencies)
    (hr : LowGroups r0) : LowGroups (pyprojectPoetrySection poetry r0) := by
  unfold pyprojectPoetrySection
  dsimp only
  cases hd : poetry.dependencies <;> cases hv : poetry.devDependencies <;>
    cases hg : poetry.group <;> dsimp only <;>
    first
    | exact hr
    | exact LowGroups_extend _ _ _ hr (collectTomlDeps_low _ _)
    | exact LowGroups_extend _ _ _ (LowGroups_extend _ _ _ hr (collectTomlDeps_low _ _))
        (collectTomlDeps_low _ _)
    | exact foldl_poetryGroupStep_low _ _ hr
    | exact foldl_poetryGroupStep_low _ _ (LowGroups_extend _ _ _ hr (collectTomlDeps_low _ _))
    | exact foldl_poetryGroupStep_low _ _
        (LowGroups_extend _ _ _ (LowGroups_extend _ _ _ hr (collectTomlDeps_low _ _))
          (collectTomlDeps_low _ _))

lemma parsePyprojectFromToml_low (p : PyprojectToml) : LowGroups (parsePyprojectFromToml p) := by
  unfold parsePyprojectFromToml
  cases hp : p.toolPoetry with
  | none => exact pyprojectPep621Section_low p
  | some poetry => exact pyprojectPoetrySection_low poetry _ (pyprojectPep621Section_low p)

lemma parseRequirementsTxt_low (content : Str) : LowGroups (parseRequirementsTxt content) := by
  unfold parseRequirementsTxt
  dsimp only
  split
  · exact LowGroups_nil
  · intro g hg
    simp only [List.mem_singleton] at hg
    subst hg
    exact foldl_reqProcessLine_low _ [] LowKeys_nil

lemma parsePyprojectToml_low (f : Str → Option PyprojectToml) (content : Str) :
    LowGroups (parsePyprojectToml f content) := by
  unfold parsePyprojectToml
  cases hs : safeTomlParse f content with
  | none => exact LowGroups_nil
  | some p => exact parsePyprojectFromToml_low p

lemma parsePipfile_low (f : Str → Option Pipfile) (content : Str) :
    LowGroups (parsePipfile f content) := by
  unfold parsePipfile
  cases hs : safeTomlParse f content with
  | none => exact LowGroups_nil
  | some pipfile =>
    dsimp only
    cases hp : pipfile.packages <;> cases hd : pipfile.devPackages <;> dsimp only <;>
      first
      | exact LowGroups_nil
      | exact LowGroups_append _ _ LowGroups_nil
          (LowGroups_group_if _ _ (collectTomlDeps_low _ _))
      | exact LowGroups_group_if _ _ (collectTomlDeps_low _ _)
      | exact LowGroups_append _ _ (LowGroups_group_if _ _ (collectTomlDeps_low _ _))
          (LowGroups_group_if _ _ (collectTomlDeps_low _ _))

lemma poetryLockGo_low :
    ∀ (pkgs : List PoetryLockPackage) (st : List (Str × Str) × List (Str × Str)),
      LowKeys st.1 → LowKeys st.2 →
      LowKeys (poetryLockGo pkgs st).1 ∧ LowKeys (poetryLockGo pkgs st).2 := by
  intro pkgs
  induction pkgs with
  | nil => intro st h1 h2; exact ⟨h1, h2⟩
  | cons pkg rest ih =>
    intro st h1 h2
    unfold poetryLockGo
    split
    · exact ih _ h1 (LowKeys_set _ _ _ h2 (jsToLower_idem _))
    · exact ih _ (LowKeys_set _ _ _ h1 (jsToLower_idem _)) h2

lemma parsePoetryLock_low (f : Str → Option PoetryLock) (content : Str) :
    LowGroups (parsePoetryLock f content) := by
  unfold parsePoetryLock
  cases hs : safeTomlParse f content with
  | none => exact LowGroups_nil
  | some lock =>
    dsimp only
    have h := poetryLockGo_low (lock.package.getD []) ([], []) LowKeys_nil LowKeys_nil
    exact LowGroups_append _ _ (LowGroups_group_if _ _ h.1) (LowGroups_group_if _ _ h.2)

/-- C10: every dependency name emitted by the Python ecosystem parsers
(`parseRequirementsTxt`, `parsePyprojectToml`, `parsePipfile`,
`parsePoetryLock`) is a fixed point of lowercasing — each parser applies
`.toLowerCase()` at the parse boundary, so differently-cased declarations
collapse to one key. -/
theorem python_parsers_lowercase_names :
    (∀ content, ∀ g ∈ parseRequirementsTxt content, ∀ q ∈ g.dependencies,
      jsToLower q.1 = q.1) ∧
    (∀ (tomlParse : Str → Option PyprojectToml) content,
      ∀ g ∈ parsePyprojectToml tomlParse content, ∀ q ∈ g.dependencies,
      jsToLower q.1 = q.1) ∧
    (∀ (tomlParse : Str → Option Pipfile) content,
      ∀ g ∈ parsePipfile tomlParse content, ∀ q ∈ g.dependencies,
      jsToLower q.1 = q.1) ∧
    (∀ (tomlParse : Str → Option PoetryLock) content,
      ∀ g ∈ parsePoetryLock tomlParse content, ∀ q ∈ g.dependencies,
      jsToLower q.1 = q.1) :=
  ⟨fun content g hg q hq => parseRequirementsTxt_low content g hg q hq,
   fun f content g hg q hq => parsePyprojectToml_low f content g hg q hq,
   fun f content g hg q hq => parsePipfile_low f content g hg q hq,
   fun f content g hg q hq => parsePoetryLock_low f content g hg q hq⟩

/-- C10 witness: a requirements file declaring `Flask` yields the
lowercased key `flask`, a fixed point of lowercasing. -/
theorem python_parsers_lowercase_names_witness :
    jsToLower (str "flask") = str "flask" ∧
    parseRequirementsTxt (str "Flask==1.0.0") =
      [{ dependencies := [(str "flask", str "1.0.0")], dependencyType := .production }] :=
  ⟨python_parsers_lowercase_names.1 (str "Flask==1.0.0")
     { dependencies := [(str "flask", str "1.0.0")], dependencyType := .production }
     (by decide) (str "flask", str "1.0.0") (by decide),
   by decide⟩
